import Mathlib

/-!
# Verification of the chape/chapel MP3-metadata codecs

A shallow embedding, in Lean 4, of the value codecs and tag pipelines of the
Songmu/chape repository (Go): the Chapter / Timestamp / NumberInSet codecs,
the date-extraction fallback, the chapter-frame write loop, the generic
text-frame mapping table, and the chapter sort performed at read time.

Go strings are modelled as Lean `String` / `List Char`.  Byte-level string
indexing in the Go source only ever inspects ASCII quote characters, for which
char-level and byte-level views agree on valid UTF-8, so the char-level model
is exact there.  Machine integers (`int`, `int64`, `time.Duration`) are
modelled as `Int` with explicit range checks where the Go code can fail on
overflow (`strconv.Atoi`).
-/

namespace Chape

/-! ## Characters and digits -/

/-- The double-quote character. -/
def dquote : Char := Char.ofNat 34

/-- The single-quote character. -/
def squote : Char := Char.ofNat 39

/-- The backslash character. -/
def bslash : Char := Char.ofNat 92

/-- ASCII decimal digit. -/
def isDigitChar (c : Char) : Bool := 48 ≤ c.toNat && c.toNat ≤ 57

/-- The decimal digit character for `n < 10`. -/
def digitChar (n : Nat) : Char := Char.ofNat (48 + n)

/-- Recursion worker for `natDigits`; the fuel strictly dominates the number
of digits, so the 0-fuel branch is unreachable from `natDigits`. -/
def natDigitsAux : Nat → Nat → List Char
  | 0, _ => []
  | fuel + 1, n =>
    if n < 10 then [digitChar n]
    else natDigitsAux fuel (n / 10) ++ [digitChar (n % 10)]

/-- Decimal digits of `n`, most significant first (the digit sequence printed
by Go's decimal integer formatting). -/
def natDigits (n : Nat) : List Char := natDigitsAux (n + 1) n

/-- Numeric value of a digit string (as computed by Go's `atoi` loops:
`n = n*10 + digit`). -/
def charsVal (cs : List Char) : Nat :=
  cs.foldl (fun a c => 10 * a + (c.toNat - 48)) 0

/-- Go decimal rendering of a natural number. -/
def natToChars (n : Nat) : List Char := natDigits n

/-- Go `%d` rendering of an `int`. -/
def intToChars (v : Int) : List Char :=
  if v < 0 then Char.ofNat 45 :: natDigits v.natAbs else natDigits v.natAbs

/-- Go `%0Nd` zero-padded rendering: pad with zeros after the sign up to total
width `w` (matches `fmt` zero padding and `time`'s internal `appendInt`). -/
def padInt (w : Nat) (v : Int) : List Char :=
  if v < 0 then
    Char.ofNat 45 :: (List.replicate (w - 1 - (natDigits v.natAbs).length) (digitChar 0)
      ++ natDigits v.natAbs)
  else
    List.replicate (w - (natDigits v.natAbs).length) (digitChar 0) ++ natDigits v.natAbs

/-! ## Go string primitives -/

/-- Go `unicode.IsSpace`, restricted to Latin-1 (the only white space the
modelled code paths can meet; all formatter outputs are ASCII). -/
def isGoSpace (c : Char) : Bool :=
  c.toNat = 32 || (9 ≤ c.toNat && c.toNat ≤ 13) || c.toNat = 0x85 || c.toNat = 0xA0

/-- Go `strings.TrimSpace`. -/
def goTrimSpace (cs : List Char) : List Char :=
  ((cs.dropWhile isGoSpace).reverse.dropWhile isGoSpace).reverse

/-- Go `strings.Split(s, sep)` for a single-character separator: split on every
occurrence, keeping empty fields; the result is never empty. -/
def splitOnChar (sep : Char) : List Char → List (List Char)
  | [] => [[]]
  | c :: rest =>
    if c = sep then [] :: splitOnChar sep rest
    else
      match splitOnChar sep rest with
      | [] => [[c]]
      | h :: t => (c :: h) :: t

/-- Go `strings.SplitN(s, sep, 2)` for a single-character separator: split at
the first occurrence only. -/
def splitN2 (sep : Char) : List Char → List (List Char)
  | [] => [[]]
  | c :: rest =>
    if c = sep then [[], rest]
    else
      match splitN2 sep rest with
      | [] => [[c]]
      | h :: t => (c :: h) :: t

/-- Go `strconv.Atoi` (64-bit `int`): optional sign, non-empty all-digit body,
failure (`none`) on syntax error or on values outside the `int64` range. -/
def goAtoi (cs : List Char) : Option Int :=
  match cs with
  | [] => none
  | c :: rest =>
    let body := if c = Char.ofNat 43 || c = Char.ofNat 45 then rest else cs
    let neg := c = Char.ofNat 45
    if body = [] then none
    else if body.all isDigitChar then
      let v : Nat := charsVal body
      if neg then
        if v ≤ 9223372036854775808 then some (-(v : Int)) else none
      else
        if v ≤ 9223372036854775807 then some (v : Int) else none
    else none

/-! ## Quoting

`goQuote`/`goUnquote` model the external Go standard library functions
`strconv.Quote` / `strconv.Unquote` (double-quoted case; the repository's
`unquote` helper only calls `strconv.Unquote` on strings that start with a
double quote).  `\xHH` escapes denoting bytes ≥ 0x80 are modelled as the code
point of the same value, since Lean strings cannot hold raw invalid UTF-8;
no theorem below depends on that corner. -/

/-- Go `unicode.IsPrint`, restricted: printable ASCII, plus all code points
≥ 0xA1 (the graphic part of Latin-1 and above; exact for the inputs the
modelled code paths produce). -/
def isPrintChar (c : Char) : Bool :=
  (32 ≤ c.toNat && c.toNat ≤ 126) || 0xA1 ≤ c.toNat

/-- Lower-case hex digit character. -/
def hexDigit (n : Nat) : Char :=
  if n < 10 then digitChar n else Char.ofNat (87 + n)

/-- Escaping of one character inside `strconv.Quote`. -/
def quoteEscapeChar (c : Char) : List Char :=
  if c = dquote || c = bslash then [bslash, c]
  else if isPrintChar c then [c]
  else match c.toNat with
  | 7 => [bslash, 'a']
  | 8 => [bslash, 'b']
  | 9 => [bslash, 't']
  | 10 => [bslash, 'n']
  | 11 => [bslash, 'v']
  | 12 => [bslash, 'f']
  | 13 => [bslash, 'r']
  | n =>
    if n < 256 then [bslash, 'x', hexDigit (n / 16), hexDigit (n % 16)]
    else if n < 65536 then
      [bslash, 'u', hexDigit (n / 4096 % 16), hexDigit (n / 256 % 16),
        hexDigit (n / 16 % 16), hexDigit (n % 16)]
    else
      [bslash, 'U', hexDigit (n / 16 ^ 7 % 16), hexDigit (n / 16 ^ 6 % 16),
        hexDigit (n / 16 ^ 5 % 16), hexDigit (n / 16 ^ 4 % 16),
        hexDigit (n / 4096 % 16), hexDigit (n / 256 % 16),
        hexDigit (n / 16 % 16), hexDigit (n % 16)]

/-- Go `strconv.Quote`. -/
def goQuote (cs : List Char) : List Char :=
  dquote :: cs.foldr (fun c acc => quoteEscapeChar c ++ acc) [dquote]

/-- Value of a hex digit character, if any. -/
def hexVal (c : Char) : Option Nat :=
  if 48 ≤ c.toNat && c.toNat ≤ 57 then some (c.toNat - 48)
  else if 97 ≤ c.toNat && c.toNat ≤ 102 then some (c.toNat - 87)
  else if 65 ≤ c.toNat && c.toNat ≤ 70 then some (c.toNat - 55)
  else none

/-- Value of an octal digit character, if any. -/
def octVal (c : Char) : Option Nat :=
  if 48 ≤ c.toNat && c.toNat ≤ 55 then some (c.toNat - 48) else none

/-- One escape sequence after a backslash, inside a double-quoted Go literal
(`strconv.UnquoteChar` with quote `"`). Returns the decoded character and how
many input characters the escape consumed. -/
def unquoteEscape (cs : List Char) : Option (Char × Nat) :=
  match cs with
  | [] => none
  | e :: rest =>
    if e = 'a' then some (Char.ofNat 7, 1)
    else if e = 'b' then some (Char.ofNat 8, 1)
    else if e = 'f' then some (Char.ofNat 12, 1)
    else if e = 'n' then some (Char.ofNat 10, 1)
    else if e = 'r' then some (Char.ofNat 13, 1)
    else if e = 't' then some (Char.ofNat 9, 1)
    else if e = 'v' then some (Char.ofNat 11, 1)
    else if e = bslash then some (bslash, 1)
    else if e = dquote then some (dquote, 1)
    else if e = 'x' then
      match rest with
      | h1 :: h2 :: _ =>
        match hexVal h1, hexVal h2 with
        | some a, some b => some (Char.ofNat (16 * a + b), 3)
        | _, _ => none
      | _ => none
    else if e = 'u' then
      match rest with
      | h1 :: h2 :: h3 :: h4 :: _ =>
        match hexVal h1, hexVal h2, hexVal h3, hexVal h4 with
        | some a, some b, some c, some d =>
          let v := 4096 * a + 256 * b + 16 * c + d
          if 0xD800 ≤ v && v ≤ 0xDFFF then none else some (Char.ofNat v, 5)
        | _, _, _, _ => none
      | _ => none
    else if e = 'U' then
      match rest with
      | h1 :: h2 :: h3 :: h4 :: h5 :: h6 :: h7 :: h8 :: _ =>
        match hexVal h1, hexVal h2, hexVal h3, hexVal h4,
              hexVal h5, hexVal h6, hexVal h7, hexVal h8 with
        | some a, some b, some c, some d, some e1, some f, some g, some h =>
          let v := ((((((a * 16 + b) * 16 + c) * 16 + d) * 16 + e1) * 16 + f)
            * 16 + g) * 16 + h
          if v > 0x10FFFF || (0xD800 ≤ v && v ≤ 0xDFFF) then none
          else some (Char.ofNat v, 9)
        | _, _, _, _, _, _, _, _ => none
      | _ => none
    else
      match octVal e, rest with
      | some a, o2 :: o3 :: _ =>
        match octVal o2, octVal o3 with
        | some b, some c =>
          let v := 64 * a + 8 * b + c
          if v ≤ 255 then some (Char.ofNat v, 3) else none
        | _, _ => none
      | _, _ => none

/-- Recursion worker for `unquoteChars`; each step consumes at least one
character, so fuel equal to the length never runs out. -/
def unquoteCharsF : Nat → List Char → Option (List Char)
  | _, [] => some []
  | 0, _ :: _ => none
  | fuel + 1, c :: rest =>
    if c = dquote || c = Char.ofNat 10 then none
    else if c = bslash then
      match unquoteEscape rest with
      | some (d, k) => (unquoteCharsF fuel (rest.drop k)).map (d :: ·)
      | none => none
    else (unquoteCharsF fuel rest).map (c :: ·)

/-- Body of a double-quoted Go literal: no raw quote or newline; escapes via
`unquoteEscape`. -/
def unquoteChars (cs : List Char) : Option (List Char) :=
  unquoteCharsF cs.length cs

/-- Go `strconv.Unquote`, double-quoted case: the string must start and end
with `"` and have a well-formed body. -/
def goUnquote (cs : List Char) : Option (List Char) :=
  match cs with
  | [] => none
  | c :: rest =>
    if c = dquote then
      match rest.getLast? with
      | some l => if l = dquote then unquoteChars rest.dropLast else none
      | none => none
    else none

/-- The repository's `unquote` helper (src/unnamed/part_004 lines 285-300):
strings of length ≤ 1 unchanged; surrounding single quotes stripped without
unescaping; strings starting with a double quote run through
`strconv.Unquote`, falling back to the input on error. -/
def unquote (cs : List Char) : List Char :=
  if cs.length ≤ 1 then cs
  else if cs.head? = some squote && cs.getLast? = some squote then
    (cs.drop 1).dropLast
  else if cs.head? = some dquote then
    match goUnquote cs with
    | some r => r
    | none => cs
  else cs

/-! ## The YAML quoting predicate

Models `token.IsNeedQuoted` of the external goccy/go-yaml dependency (the
version pinned by the repository, whose behaviour the repository's own tests
fix: a plain `1:30 Main Topic` scalar is NOT quoted, while scalars containing
a colon-space or a hash are).  The reserved-word / number-likeness /
time-likeness clauses only ever fire on space-free scalars, which chapter
strings never are; no theorem below depends on their exact extent — the
round-trip theorem is proved for both outcomes of this predicate. -/

/-- Scalars goccy/go-yaml always quotes as words. -/
def yamlReservedWord (cs : List Char) : Bool :=
  [String.mk cs].any fun s =>
    s = "true" || s = "false" || s = "null" || s = "~" ||
    s = "True" || s = "False" || s = "Null"

/-- Number-like space-free scalar (approximation of goccy's number scan). -/
def looksLikeNumberScalar (cs : List Char) : Bool :=
  match cs with
  | [] => false
  | c :: rest =>
    let body := if c = '+' || c = Char.ofNat 45 then rest else cs
    body ≠ [] && body.all (fun d => isDigitChar d || d = '.') &&
      body.any isDigitChar && body.count '.' ≤ 1

/-- Time-like space-free scalar such as `12:30` (goccy's
`looksLikeTimeValue`). -/
def looksLikeTimeScalar (cs : List Char) : Bool :=
  cs ≠ [] && cs.all (fun d => isDigitChar d || d = ':') &&
    cs.any (· = ':') && cs.any isDigitChar

/-- Characters that force quoting when first. -/
def firstCharSpecial (c : Char) : Bool :=
  c = '*' || c = '&' || c = '[' || c = ']' || c = Char.ofNat 123 ||
  c = Char.ofNat 125 || c = ',' || c = '!' || c = '|' || c = '>' ||
  c = '%' || c = '@' || c = dquote || c = squote || c = ' '

/-- A `#` or `\` anywhere, or a `:` immediately followed by a space. -/
def bodySpecial : List Char → Bool
  | [] => false
  | c :: rest =>
    if c = '#' || c = bslash then true
    else if c = ':' && rest.head? = some ' ' then true
    else bodySpecial rest

/-- Model of goccy/go-yaml `token.IsNeedQuoted`. -/
def isNeedQuoted (cs : List Char) : Bool :=
  match cs with
  | [] => true
  | c :: _ =>
    yamlReservedWord cs || looksLikeNumberScalar cs || looksLikeTimeScalar cs ||
    firstCharSpecial c ||
    (cs.getLast? = some ':' || cs.getLast? = some ' ') || bodySpecial cs

/-! ## Chapter codec (src/unnamed/part_004 lines 59-186) -/

/-- `Chapter`: a start offset (Go `time.Duration`, nanoseconds) and a title. -/
structure Chapter where
  title : String
  start : Int
deriving DecidableEq, Repr

/-- The WebVTT time part of `Chapter.String`: `Start.Milliseconds()` is
truncated division by 10^6, hours/minutes/seconds/millis by Go `/` and `%`
(truncated), formatted `%d:%02d:%02d.%03d` with hours and milliseconds parts
optional. -/
def chapterTimeChars (start : Int) : List Char :=
  let ms := start.tdiv 1000000
  let hours := ms.tdiv 3600000
  let minutes := (ms.tmod 3600000).tdiv 60000
  let seconds := (ms.tmod 60000).tdiv 1000
  let millis := ms.tmod 1000
  if millis = 0 then
    if hours > 0 then
      intToChars hours ++ ':' :: padInt 2 minutes ++ ':' :: padInt 2 seconds
    else
      intToChars minutes ++ ':' :: padInt 2 seconds
  else
    if hours > 0 then
      intToChars hours ++ ':' :: padInt 2 minutes ++ ':' :: padInt 2 seconds
        ++ '.' :: padInt 3 millis
    else
      intToChars minutes ++ ':' :: padInt 2 seconds ++ '.' :: padInt 3 millis

/-- `Chapter.String`: time part, a space, then the title. -/
def chapterString (c : Chapter) : String :=
  String.mk (chapterTimeChars c.start ++ ' ' :: c.title.data)

/-- `Chapter.MarshalYAML`: the WebVTT string, quoted with `strconv.Quote` when
the YAML encoder needs it. -/
def chapterMarshalYAML (c : Chapter) : String :=
  let s := chapterString c
  if isNeedQuoted s.data then String.mk (goQuote s.data) else s

/-- The seconds segment of the time token: an optional fractional part is
right-padded with zeros to 3 digits or truncated to the first 3 digits, then
parsed with `strconv.Atoi`.  Returns (seconds, millis). -/
def parseSecondsSegment (cs : List Char) : Except String (Int × Int) :=
  if cs.contains '.' then
    match splitOnChar '.' cs with
    | p0 :: p1 :: _ =>
      match goAtoi p0 with
      | none => Except.error ("invalid seconds: " ++ String.mk p0)
      | some s =>
        if p1.length > 0 then
          let msStr :=
            if p1.length > 3 then p1.take 3
            else p1 ++ List.replicate (3 - p1.length) '0'
          match goAtoi msStr with
          | none => Except.error ("invalid milliseconds: " ++ String.mk p1)
          | some ms => Except.ok (s, ms)
        else Except.ok (s, 0)
    | _ => Except.error ("invalid seconds: " ++ String.mk cs)

  else
    match goAtoi cs with
    | none => Except.error ("invalid seconds: " ++ String.mk cs)
    | some s => Except.ok (s, 0)

/-- The time token of a chapter line: `M:SS[.mmm]` or `H:MM:SS[.mmm]`.
Returns the total number of milliseconds. -/
def parseChapterTime (timeStr : List Char) : Except String Int :=
  match splitOnChar ':' timeStr with
  | [mPart, sPart] =>
    match goAtoi mPart with
    | none => Except.error ("invalid minutes: " ++ String.mk mPart)
    | some minutes =>
      match parseSecondsSegment sPart with
      | Except.error e => Except.error e
      | Except.ok (seconds, millis) =>
        Except.ok (minutes * 60000 + seconds * 1000 + millis)
  | [hPart, mPart, sPart] =>
    match goAtoi hPart with
    | none => Except.error ("invalid hours: " ++ String.mk hPart)
    | some hours =>
      match goAtoi mPart with
      | none => Except.error ("invalid minutes: " ++ String.mk mPart)
      | some minutes =>
        match parseSecondsSegment sPart with
        | Except.error e => Except.error e
        | Except.ok (seconds, millis) =>
          Except.ok (hours * 3600000 + minutes * 60000 + seconds * 1000 + millis)
  | _ => Except.error ("invalid time format: " ++ String.mk timeStr)

/-- The part of `Chapter.UnmarshalYAML` after trimming and unquoting: split at
the first space into the time token and the title, parse the time token, and
rebuild the start as `totalMs * time.Millisecond`. -/
def chapterParseBody (str : List Char) : Except String Chapter :=
  match splitN2 ' ' str with
  | [timeStr, title] =>
    match parseChapterTime timeStr with
    | Except.error e => Except.error e
    | Except.ok totalMs => Except.ok ⟨String.mk title, totalMs * 1000000⟩
  | _ => Except.error ("invalid chapter format: " ++ String.mk str)

/-- `Chapter.UnmarshalYAML`: trim, unquote, then `chapterParseBody`. -/
def chapterUnmarshalYAML (b : String) : Except String Chapter :=
  chapterParseBody (unquote (goTrimSpace b.data))

/-! ## NumberInSet codec (src/unnamed/part_004 lines 33-37, 188-207, 269-283) -/

/-- `NumberInSet`: a current/total pair. -/
structure NumberInSet where
  current : Int
  total : Int
deriving DecidableEq, Repr

/-- `NumberInSet.String`: `Current/Total`, or just `Current` when
`Total ≤ 0`. -/
def numberInSetString (n : NumberInSet) : String :=
  if n.total > 0 then String.mk (intToChars n.current ++ '/' :: intToChars n.total)
  else String.mk (intToChars n.current)

/-- `parseNumberPair`: split on every `/`; the first part, when non-empty and
numeric, gives current; the second part, when present, non-empty and numeric,
gives total; all failures degrade to 0. -/
def parseNumberPair (cs : List Char) : Int × Int :=
  let parts := splitOnChar '/' cs
  let current : Int :=
    match parts.head? with
    | some p0 => if p0 ≠ [] then (goAtoi p0).getD 0 else 0
    | none => 0
  let total : Int :=
    match parts.get? 1 with
    | some p1 => if p1 ≠ [] then (goAtoi p1).getD 0 else 0
    | none => 0
  (current, total)

/-- `NumberInSet.UnmarshalYAML`: trim, unquote, `parseNumberPair`; never an
error. -/
def numberInSetUnmarshalYAML (b : String) : Except String NumberInSet :=
  let str := unquote (goTrimSpace b.data)
  let p := parseNumberPair str
  Except.ok ⟨p.1, p.2⟩

/-! ## Timestamp codec (src/unnamed/part_004 lines 39-57, 209-267)

`time.Time` is modelled as a UTC wall-clock record at second resolution
(`GoDateTime`); the codec never reads or writes finer fields or locations. -/

/-- The wall-clock fields of a `time.Time` used by the codec. -/
structure GoDateTime where
  year : Nat
  month : Nat
  day : Nat
  hour : Nat
  minute : Nat
  second : Nat
deriving DecidableEq, Repr

/-- The zero `time.Time`: January 1, year 1, 00:00:00 UTC. -/
def goZeroTime : GoDateTime := ⟨1, 1, 1, 0, 0, 0⟩

/-- `Precision`: which components a timestamp carries. -/
inductive Precision
  | year
  | month
  | day
  | hour
  | minute
  | second
deriving DecidableEq, Repr

/-- `Timestamp`: a `time.Time` plus its precision. -/
structure Timestamp where
  time : GoDateTime
  precision : Precision
deriving DecidableEq, Repr

/-- Zero-padded rendering of a component (Go `time.Format` zero padding). -/
def padNat (w n : Nat) : List Char :=
  List.replicate (w - (natDigits n).length) (digitChar 0) ++ natDigits n

/-- `Timestamp.String`: empty for the zero time, else the layout selected by
the precision (`2006`, `2006-01`, …, `2006-01-02T15:04:05`). -/
def timestampString (t : Timestamp) : String :=
  if t.time = goZeroTime then "" else
  String.mk <|
    match t.precision with
    | Precision.year => padNat 4 t.time.year
    | Precision.month => padNat 4 t.time.year ++ '-' :: padNat 2 t.time.month
    | Precision.day =>
      padNat 4 t.time.year ++ '-' :: padNat 2 t.time.month
        ++ '-' :: padNat 2 t.time.day
    | Precision.hour =>
      padNat 4 t.time.year ++ '-' :: padNat 2 t.time.month
        ++ '-' :: padNat 2 t.time.day ++ 'T' :: padNat 2 t.time.hour
    | Precision.minute =>
      padNat 4 t.time.year ++ '-' :: padNat 2 t.time.month
        ++ '-' :: padNat 2 t.time.day ++ 'T' :: padNat 2 t.time.hour
        ++ ':' :: padNat 2 t.time.minute
    | Precision.second =>
      padNat 4 t.time.year ++ '-' :: padNat 2 t.time.month
        ++ '-' :: padNat 2 t.time.day ++ 'T' :: padNat 2 t.time.hour
        ++ ':' :: padNat 2 t.time.minute ++ ':' :: padNat 2 t.time.second

/-- Go `time` layout `2006` fragment: exactly four digits. -/
def parse4Year : List Char → Option (Nat × List Char)
  | a :: b :: c :: d :: rest =>
    if isDigitChar a && isDigitChar b && isDigitChar c && isDigitChar d then
      some (charsVal [a, b, c, d], rest)
    else none
  | _ => none

/-- Go `time` zero-padded two-digit fragment (`01`, `02`, `04`, `05`):
exactly two digits. -/
def parseFixed2 : List Char → Option (Nat × List Char)
  | a :: b :: rest =>
    if isDigitChar a && isDigitChar b then some (charsVal [a, b], rest)
    else none
  | _ => none

/-- Go `time` hour fragment `15`: one or two digits (`getnum` non-fixed). -/
def parseHour12 : List Char → Option (Nat × List Char)
  | [] => none
  | [a] => if isDigitChar a then some (charsVal [a], []) else none
  | a :: b :: rest =>
    if isDigitChar a then
      if isDigitChar b then some (charsVal [a, b], rest)
      else some (charsVal [a], b :: rest)
    else none

/-- A literal layout character. -/
def expectChar (c : Char) : List Char → Option (List Char)
  | x :: rest => if x = c then some rest else none
  | [] => none

/-- Gregorian leap year (Go `isLeap`). -/
def isLeapYear (y : Nat) : Bool :=
  y % 4 = 0 && (y % 100 ≠ 0 || y % 400 = 0)

/-- Days in a month (Go `daysIn`). -/
def daysIn (y m : Nat) : Nat :=
  if m = 2 then (if isLeapYear y then 29 else 28)
  else if m = 4 || m = 6 || m = 9 || m = 11 then 30
  else 31

/-- The range checks Go `time.Parse` performs after consuming a layout. -/
def validDateTime (dt : GoDateTime) : Bool :=
  1 ≤ dt.month && dt.month ≤ 12 && 1 ≤ dt.day && dt.day ≤ daysIn dt.year dt.month
    && dt.hour ≤ 23 && dt.minute ≤ 59 && dt.second ≤ 59

/-- `time.ParseInLocation("2006", ·, UTC)` with full-input consumption. -/
def parseLayoutYear (cs : List Char) : Option GoDateTime := do
  let (y, cs) ← parse4Year cs
  guard (cs = [])
  let dt : GoDateTime := ⟨y, 1, 1, 0, 0, 0⟩
  guard (validDateTime dt)
  pure dt

/-- `time.ParseInLocation("2006-01", ·, UTC)`. -/
def parseLayoutMonth (cs : List Char) : Option GoDateTime := do
  let (y, cs) ← parse4Year cs
  let cs ← expectChar '-' cs
  let (mo, cs) ← parseFixed2 cs
  guard (cs = [])
  let dt : GoDateTime := ⟨y, mo, 1, 0, 0, 0⟩
  guard (validDateTime dt)
  pure dt

/-- `time.ParseInLocation("2006-01-02", ·, UTC)`. -/
def parseLayoutDay (cs : List Char) : Option GoDateTime := do
  let (y, cs) ← parse4Year cs
  let cs ← expectChar '-' cs
  let (mo, cs) ← parseFixed2 cs
  let cs ← expectChar '-' cs
  let (d, cs) ← parseFixed2 cs
  guard (cs = [])
  let dt : GoDateTime := ⟨y, mo, d, 0, 0, 0⟩
  guard (validDateTime dt)
  pure dt

/-- `time.ParseInLocation("2006-01-02T15", ·, UTC)`. -/
def parseLayoutHour (cs : List Char) : Option GoDateTime := do
  let (y, cs) ← parse4Year cs
  let cs ← expectChar '-' cs
  let (mo, cs) ← parseFixed2 cs
  let cs ← expectChar '-' cs
  let (d, cs) ← parseFixed2 cs
  let cs ← expectChar 'T' cs
  let (h, cs) ← parseHour12 cs
  guard (cs = [])
  let dt : GoDateTime := ⟨y, mo, d, h, 0, 0⟩
  guard (validDateTime dt)
  pure dt

/-- `time.ParseInLocation("2006-01-02T15:04", ·, UTC)`. -/
def parseLayoutMinute (cs : List Char) : Option GoDateTime := do
  let (y, cs) ← parse4Year cs
  let cs ← expectChar '-' cs
  let (mo, cs) ← parseFixed2 cs
  let cs ← expectChar '-' cs
  let (d, cs) ← parseFixed2 cs
  let cs ← expectChar 'T' cs
  let (h, cs) ← parseHour12 cs
  let cs ← expectChar ':' cs
  let (mi, cs) ← parseFixed2 cs
  guard (cs = [])
  let dt : GoDateTime := ⟨y, mo, d, h, mi, 0⟩
  guard (validDateTime dt)
  pure dt

/-- `time.ParseInLocation("2006-01-02T15:04:05", ·, UTC)`. -/
def parseLayoutSecond (cs : List Char) : Option GoDateTime := do
  let (y, cs) ← parse4Year cs
  let cs ← expectChar '-' cs
  let (mo, cs) ← parseFixed2 cs
  let cs ← expectChar '-' cs
  let (d, cs) ← parseFixed2 cs
  let cs ← expectChar 'T' cs
  let (h, cs) ← parseHour12 cs
  let cs ← expectChar ':' cs
  let (mi, cs) ← parseFixed2 cs
  let cs ← expectChar ':' cs
  let (se, cs) ← parseFixed2 cs
  guard (cs = [])
  let dt : GoDateTime := ⟨y, mo, d, h, mi, se⟩
  guard (validDateTime dt)
  pure dt

/-- The part of `Timestamp.UnmarshalYAML` after trimming and unquoting: empty
input is the zero timestamp; otherwise try the six layouts from Second down to
Year, first match fixing the precision; no match is a format error naming the
input. -/
def timestampParseBody (str : List Char) : Except String Timestamp :=
  if str = [] then Except.ok ⟨goZeroTime, Precision.year⟩
  else
    match parseLayoutSecond str with
    | some dt => Except.ok ⟨dt, Precision.second⟩
    | none =>
      match parseLayoutMinute str with
      | some dt => Except.ok ⟨dt, Precision.minute⟩
      | none =>
        match parseLayoutHour str with
        | some dt => Except.ok ⟨dt, Precision.hour⟩
        | none =>
          match parseLayoutDay str with
          | some dt => Except.ok ⟨dt, Precision.day⟩
          | none =>
            match parseLayoutMonth str with
            | some dt => Except.ok ⟨dt, Precision.month⟩
            | none =>
              match parseLayoutYear str with
              | some dt => Except.ok ⟨dt, Precision.year⟩
              | none =>
                Except.error ("invalid timestamp format: " ++ String.mk str)

/-- `Timestamp.UnmarshalYAML`: trim, unquote, then `timestampParseBody`. -/
def timestampUnmarshalYAML (b : String) : Except String Timestamp :=
  timestampParseBody (unquote (goTrimSpace b.data))

/-! ## Chapter-frame injection (src/apply.go lines 641-677, `writeMetadata`) -/

/-- The fields of an `id3v2.ChapterFrame` the write loop populates.  Offsets
are `uint32`, modelled as `Nat`. -/
structure GoChapterFrame where
  elementID : String
  startTime : Int
  endTime : Int
  startOffset : Nat
  endOffset : Nat
  title : String
  description : String
deriving DecidableEq, Repr

/-- The chapter write loop: element ids `chp0, chp1, …`; end time is the next
chapter's start, or the audio duration for the last chapter; offsets are
`math.MaxUint32`. -/
def writeChapterFrames (i : Nat) (chs : List Chapter) (dur : Int) :
    List GoChapterFrame :=
  match chs with
  | [] => []
  | c :: rest =>
    let endTime : Int :=
      match rest with
      | next :: _ => next.start
      | [] => dur
    { elementID := String.mk ('c' :: 'h' :: 'p' :: natToChars i)
      startTime := c.start
      endTime := endTime
      startOffset := 4294967295
      endOffset := 4294967295
      title := c.title
      description := "" } :: writeChapterFrames (i + 1) rest dur

/-- The chapter part of `writeMetadata`: all chapter frames written for a
chapter list and a total audio duration. -/
def writeMetadataChapters (chs : List Chapter) (dur : Int) : List GoChapterFrame :=
  writeChapterFrames 0 chs dur

/-! ## Date extraction (src/unnamed/part_001 lines 57-72, `getMetadata`) -/

/-- The date branch of `getMetadata`.  `modern` is the last TDRC text frame
(`none` = no frame present), `legacyYear` is `id3tag.Year()`.  The legacy
branch is an `else` of the frame-presence test: it only runs when no TDRC
frame exists at all. -/
def extractDate (modern : Option String) (legacyYear : String) : Option Timestamp :=
  match modern with
  | some txt =>
    if txt ≠ "" then
      match timestampUnmarshalYAML txt with
      | Except.ok ts => some ts
      | Except.error _ => none
    else none
  | none =>
    if legacyYear ≠ "" then
      match timestampUnmarshalYAML legacyYear with
      | Except.ok ts => some ts
      | Except.error _ => none
    else none

/-! ## Frame mapping table (src/tags.go lines 10-146) -/

/-- One text frame of the tag store. -/
structure Frame where
  id : String
  text : String
deriving DecidableEq, Repr

/-- Modelled from the spec: the `chape` package's `Metadata` struct is not
under src/ (only the `chapel` variant is); its fields are those referenced by
src/tags.go and §3 of the spec. -/
structure Metadata where
  title : String
  subtitle : String
  artist : String
  album : String
  albumArtist : String
  grouping : String
  genre : String
  composer : String
  publisher : String
  copyright : String
  language : String
  bpm : Int
  track : Option NumberInSet
  disc : Option NumberInSet

/-- Modelled from the spec: `normalizeLanguageCode` (referenced by src/tags.go
but not under src/) canonicalizes language codes for the TLAN frame; common
two-letter codes map to ISO 639-2, anything else passes through.  No theorem
depends on its exact table. -/
def normalizeLanguageCode (s : String) : String :=
  if s = "en" then "eng"
  else if s = "ja" then "jpn"
  else if s = "de" then "deu"
  else if s = "fr" then "fra"
  else if s = "es" then "spa"
  else s

/-- Modelled from the spec: the `chape` variant of `NumberInSet.String` is
called on possibly-nil pointers by the mapping table (src/tags.go lines 56-58),
and per the absent-field invariant of §3/§4.4 an absent pair renders as the
empty string. -/
def numberInSetPtrString (o : Option NumberInSet) : String :=
  match o with
  | none => ""
  | some n => numberInSetString n

/-- `tagMapping`: a frame id, a `Metadata` field name, and an optional custom
converter (src/tags.go lines 10-17; only the write direction is modelled
here). -/
structure TagMapping where
  tagID : String
  fieldName : String
  toStringFn : Option (Metadata → String)

/-- `getFieldString`: reflection-based lookup of a string field by name;
unknown or non-string fields yield the empty string. -/
def getFieldString (m : Metadata) (fieldName : String) : String :=
  if fieldName = "Title" then m.title
  else if fieldName = "Subtitle" then m.subtitle
  else if fieldName = "Artist" then m.artist
  else if fieldName = "Album" then m.album
  else if fieldName = "AlbumArtist" then m.albumArtist
  else if fieldName = "Grouping" then m.grouping
  else if fieldName = "Genre" then m.genre
  else if fieldName = "Composer" then m.composer
  else if fieldName = "Publisher" then m.publisher
  else if fieldName = "Copyright" then m.copyright
  else if fieldName = "Language" then m.language
  else ""

/-- `textFrameMappings` (src/tags.go lines 20-79). -/
def textFrameMappings : List TagMapping :=
  [⟨"TIT2", "Title", none⟩,
   ⟨"TIT3", "Subtitle", none⟩,
   ⟨"TPE1", "Artist", none⟩,
   ⟨"TALB", "Album", none⟩,
   ⟨"TPE2", "AlbumArtist", none⟩,
   ⟨"TIT1", "Grouping", none⟩,
   ⟨"TCON", "Genre", none⟩,
   ⟨"TCOM", "Composer", none⟩,
   ⟨"TPUB", "Publisher", none⟩,
   ⟨"TCOP", "Copyright", none⟩,
   ⟨"TLAN", "Language", some fun m => normalizeLanguageCode m.language⟩,
   ⟨"TBPM", "BPM",
     some fun m => if m.bpm = 0 then "" else String.mk (intToChars m.bpm)⟩,
   ⟨"TRCK", "Track", some fun m => numberInSetPtrString m.track⟩,
   ⟨"TPOS", "Disc", some fun m => numberInSetPtrString m.disc⟩]

/-- `tagMapping.getValue`: the custom converter when present, else
reflection. -/
def getValue (tm : TagMapping) (m : Metadata) : String :=
  match tm.toStringFn with
  | some f => f m
  | none => getFieldString m tm.fieldName

/-- `id3tag.DeleteFrames(id)`: remove every frame with that id. -/
def deleteFrames (tag : List Frame) (id : String) : List Frame :=
  tag.filter fun f => f.id ≠ id

/-- `id3tag.AddTextFrame(id, enc, text)`: add one text frame. -/
def addTextFrame (tag : List Frame) (id text : String) : List Frame :=
  tag ++ [⟨id, text⟩]

/-- One iteration of `applyTextFrames`: delete the mapping's frames, then
re-add one frame only when the computed value is non-empty. -/
def applyEntry (tm : TagMapping) (m : Metadata) (tag : List Frame) : List Frame :=
  let tag := deleteFrames tag tm.tagID
  let value := getValue tm m
  if value ≠ "" then addTextFrame tag tm.tagID value else tag

/-- `applyTextFrames` (src/tags.go lines 121-135). -/
def applyTextFrames (tag : List Frame) (m : Metadata) : List Frame :=
  textFrameMappings.foldl (fun t e => applyEntry e m t) tag

/-! ## Claim-side and proof-side auxiliary definitions -/

/-- The claim reading of NumberInSet parsing that splits only once, at the
first `/` (for comparison with `parseNumberPair`, which splits at every
`/`). -/
def specSplitOncePair (cs : List Char) : Int × Int :=
  match splitN2 '/' cs with
  | [p0] => (if p0 ≠ [] then (goAtoi p0).getD 0 else 0, 0)
  | [p0, p1] =>
    (if p0 ≠ [] then (goAtoi p0).getD 0 else 0,
     if p1 ≠ [] then (goAtoi p1).getD 0 else 0)
  | _ => (0, 0)

/-- Printable-ASCII characters other than the double quote and backslash:
titles made of these survive `strconv.Quote`/`strconv.Unquote` unchanged. -/
def plainChar (c : Char) : Bool :=
  32 ≤ c.toNat && c.toNat ≤ 126 && c ≠ dquote && c ≠ bslash

/-- How many components a precision carries beyond the year. -/
def precLevel : Precision → Nat
  | Precision.year => 0
  | Precision.month => 1
  | Precision.day => 2
  | Precision.hour => 3
  | Precision.minute => 4
  | Precision.second => 5

/-- A well-formed timestamp: the instant passes Go's range checks, the year
fits the four-digit layout, and every component finer than the precision is at
its parse default. -/
def validTimestamp (t : Timestamp) : Prop :=
  t.time.year ≤ 9999 ∧ validDateTime t.time = true ∧
  (precLevel t.precision < 1 → t.time.month = 1) ∧
  (precLevel t.precision < 2 → t.time.day = 1) ∧
  (precLevel t.precision < 3 → t.time.hour = 0) ∧
  (precLevel t.precision < 4 → t.time.minute = 0) ∧
  (precLevel t.precision < 5 → t.time.second = 0)

/-! ## The chapter sort at read time

src/unnamed/part_001 lines 134-136 sorts the chapters with
`slices.SortFunc(chapters, func(a, b) int { return cmp.Compare(a.Start, b.Start) })`.
Go's `slices.SortFunc` is pattern-defeating quicksort (`pdqsortCmpFunc` and
its helpers from the Go standard library, mirrored below); it is documented
as not stable.  Loops whose index juggling resists a structural measure carry
an explicit fuel parameter, always called with more fuel than the loop can
consume. -/

/-- `cmp.Compare(a.Start, b.Start)`. -/
def goCmpChapter (x y : Chapter) : Int :=
  if x.start < y.start then -1 else if y.start < x.start then 1 else 0

/-- Element read (`data[i]`); all modelled accesses are in bounds. -/
def cget (l : List Chapter) (i : Nat) : Chapter := l.getD i ⟨"", 0⟩

/-- `data[i], data[j] = data[j], data[i]`. -/
def cswap (l : List Chapter) (i j : Nat) : List Chapter :=
  (l.set i (cget l j)).set j (cget l i)

/-- Inner loop of `insertionSortCmpFunc`: bubble the element at `j` left while
it is strictly smaller than its left neighbour (structural recursion on
`j`). -/
def insInner (l : List Chapter) (a : Nat) : Nat → List Chapter
  | 0 => l
  | j + 1 =>
    if a < j + 1 ∧ goCmpChapter (cget l (j + 1)) (cget l j) < 0 then
      insInner (cswap l (j + 1) j) a j
    else l

/-- Outer loop of `insertionSortCmpFunc` over iterations left (`b - i`). -/
def insOuter (a : Nat) : Nat → List Chapter → Nat → List Chapter
  | 0, l, _ => l
  | k + 1, l, i => insOuter a k (insInner l a i) (i + 1)

/-- Go `insertionSortCmpFunc(data, a, b, cmp)`. -/
def insertionSortGo (l : List Chapter) (a b : Nat) : List Chapter :=
  insOuter a (b - (a + 1)) l (a + 1)

/-- Hints returned by `choosePivotCmpFunc`. -/
inductive SortedHint
  | unknown
  | increasing
  | decreasing
deriving DecidableEq, Repr

/-- Go `order2CmpFunc`: order two indices, counting swaps. -/
def order2 (l : List Chapter) (a b swaps : Nat) : Nat × Nat × Nat :=
  if goCmpChapter (cget l b) (cget l a) < 0 then (b, a, swaps + 1) else (a, b, swaps)

/-- Go `medianCmpFunc`: index of the median of three, counting swaps. -/
def median (l : List Chapter) (a b c swaps : Nat) : Nat × Nat :=
  let r1 := order2 l a b swaps
  let r2 := order2 l r1.2.1 c r1.2.2
  let r3 := order2 l r1.1 r2.1 r2.2.2
  (r3.2.1, r3.2.2)

/-- Go `medianAdjacentCmpFunc`. -/
def medianAdjacent (l : List Chapter) (a swaps : Nat) : Nat × Nat :=
  median l (a - 1) a (a + 1) swaps

/-- Go `choosePivotCmpFunc`: median-based pivot with a sortedness hint.
`shortestNinther = 50`, `maxSwaps = 12`. -/
def choosePivot (l : List Chapter) (a b : Nat) : Nat × SortedHint :=
  let len := b - a
  let i := a + (len / 4) * 1
  let j := a + (len / 4) * 2
  let k := a + (len / 4) * 3
  let js :=
    if len ≥ 8 then
      if len ≥ 50 then
        let r1 := medianAdjacent l i 0
        let r2 := medianAdjacent l j r1.2
        let r3 := medianAdjacent l k r2.2
        median l r1.1 r2.1 r3.1 r3.2
      else median l i j k 0
    else (j, 0)
  if js.2 = 0 then (js.1, SortedHint.increasing)
  else if js.2 = 12 then (js.1, SortedHint.decreasing)
  else (js.1, SortedHint.unknown)

/-- The sorted-run scan of `partialInsertionSortCmpFunc`: first position not
in ascending order, or `b`; the fuel argument is exactly `b - i`, so fuel 0
means `i ≥ b`. -/
def pdqScanRun (l : List Chapter) : Nat → Nat → Nat
  | 0, i => i
  | k + 1, i =>
    if goCmpChapter (cget l i) (cget l (i - 1)) < 0 then i
    else pdqScanRun l k (i + 1)

/-- The shift-to-the-left loop of `partialInsertionSortCmpFunc` (structural on
`j`; the loop guard `j ≥ 1` is the pattern match). -/
def shiftLeftLoop (l : List Chapter) : Nat → List Chapter
  | 0 => l
  | j + 1 =>
    if goCmpChapter (cget l (j + 1)) (cget l j) < 0 then
      shiftLeftLoop (cswap l (j + 1) j) j
    else l

/-- The shift-to-the-right loop of `partialInsertionSortCmpFunc`; the fuel is
exactly `b - j`, so fuel 0 means `j ≥ b`. -/
def shiftRightLoop (l : List Chapter) : Nat → Nat → List Chapter
  | 0, _ => l
  | k + 1, j =>
    if goCmpChapter (cget l j) (cget l (j - 1)) < 0 then
      shiftRightLoop (cswap l j (j - 1)) k (j + 1)
    else l

/-- The step loop of Go `partialInsertionSortCmpFunc` (`maxSteps = 5`,
`shortestShifting = 50`); returns the data and whether the range ended up
sorted. -/
def pdqTryInsertionLoop (l : List Chapter) (a b : Nat) (i : Nat) :
    Nat → List Chapter × Bool
  | 0 => (l, false)
  | steps + 1 =>
    let i := pdqScanRun l (b - i) i
    if i = b then (l, true)
    else if b - a < 50 then (l, false)
    else
      let l := cswap l i (i - 1)
      let l := if i - a ≥ 2 then shiftLeftLoop l (i - 1) else l
      let l := if b - i ≥ 2 then shiftRightLoop l (b - (i + 1)) (i + 1) else l
      pdqTryInsertionLoop l a b i steps

/-- Go `partialInsertionSortCmpFunc(data, a, b, cmp)`. -/
def pdqTryInsertionSort (l : List Chapter) (a b : Nat) : List Chapter × Bool :=
  pdqTryInsertionLoop l a b (a + 1) 5

/-- `bits.Len`. -/
def bitsLen (n : Nat) : Nat := if n = 0 then 0 else Nat.log2 n + 1

/-- The xorshift step of Go `sort`'s pattern breaker (`uint64`). -/
def xorshiftNext (r : Nat) : Nat :=
  let r := (r ^^^ (r <<< 13)) % 18446744073709551616
  let r := r ^^^ (r >>> 7)
  (r ^^^ (r <<< 17)) % 18446744073709551616

/-- Go `breakPatternsCmpFunc`: swap three positions around the middle with
pseudo-random ones. -/
def breakPatternsGo (l : List Chapter) (a b : Nat) : List Chapter :=
  let length := b - a
  if length ≥ 8 then
    let modulus := 2 ^ bitsLen length
    let idx := a + (length / 4) * 2 - 1
    let r1 := xorshiftNext length
    let o1 := let o := r1 % modulus; if o ≥ length then o - length else o
    let l := cswap l (idx - 1) (a + o1)
    let r2 := xorshiftNext r1
    let o2 := let o := r2 % modulus; if o ≥ length then o - length else o
    let l := cswap l idx (a + o2)
    let r3 := xorshiftNext r2
    let o3 := let o := r3 % modulus; if o ≥ length then o - length else o
    cswap l (idx + 1) (a + o3)
  else l

/-- Go `siftDownCmpFunc` (fuelled; the root strictly increases and stays below
`hi`, so fuel `hi` suffices). -/
def siftDownLoop (hi first : Nat) : Nat → List Chapter → Nat → List Chapter
  | 0, l, _ => l
  | fuel + 1, l, root =>
    let child0 := 2 * root + 1
    if child0 < hi then
      let child :=
        if child0 + 1 < hi ∧
            goCmpChapter (cget l (first + child0)) (cget l (first + child0 + 1)) < 0
        then child0 + 1 else child0
      if goCmpChapter (cget l (first + root)) (cget l (first + child)) < 0 then
        siftDownLoop hi first fuel (cswap l (first + root) (first + child)) child
      else l
    else l

/-- Go `siftDownCmpFunc(data, lo, hi, first, cmp)`. -/
def siftDownGo (l : List Chapter) (lo hi first : Nat) : List Chapter :=
  siftDownLoop hi first hi l lo

/-- The heap-building loop of `heapSortCmpFunc`, processing `i` down to 0. -/
def heapInit (hi first : Nat) : Nat → List Chapter → List Chapter
  | 0, l => siftDownGo l 0 hi first
  | i + 1, l => heapInit hi first i (siftDownGo l (i + 1) hi first)

/-- The extraction loop of `heapSortCmpFunc`, processing `i` down to 0. -/
def heapFini (first : Nat) : Nat → List Chapter → List Chapter
  | 0, l => siftDownGo (cswap l first (first + 0)) 0 0 first
  | i + 1, l =>
    heapFini first i (siftDownGo (cswap l first (first + i + 1)) 0 (i + 1) first)

/-- Go `heapSortCmpFunc(data, a, b, cmp)`. -/
def heapSortGo (l : List Chapter) (a b : Nat) : List Chapter :=
  let first := a
  let hi := b - a
  heapFini first (hi - 1) (heapInit hi first ((hi - 1) / 2) l)

/-- Go `reverseRangeCmpFunc` (fuelled; fuel `j` dominates the iteration
count). -/
def revLoop : Nat → List Chapter → Nat → Nat → List Chapter
  | 0, l, _, _ => l
  | fuel + 1, l, i, j =>
    if i < j then revLoop fuel (cswap l i j) (i + 1) (j - 1) else l

/-- Go `reverseRangeCmpFunc(data, a, b)`. -/
def reverseRangeGo (l : List Chapter) (a b : Nat) : List Chapter :=
  revLoop b l a (b - 1)

/-- `for i <= j && cmp(data[i], pv) < 0 { i++ }` (fuelled). -/
def advanceI (l : List Chapter) (pv : Chapter) (j : Nat) : Nat → Nat → Nat
  | 0, i => i
  | fuel + 1, i =>
    if i ≤ j ∧ goCmpChapter (cget l i) pv < 0 then advanceI l pv j fuel (i + 1)
    else i

/-- `for i <= j && !(cmp(data[j], pv) < 0) { j-- }` (fuelled). -/
def advanceJ (l : List Chapter) (pv : Chapter) (i : Nat) : Nat → Nat → Nat
  | 0, j => j
  | fuel + 1, j =>
    if i ≤ j ∧ ¬ goCmpChapter (cget l j) pv < 0 then advanceJ l pv i fuel (j - 1)
    else j

/-- The main loop of Go `partitionCmpFunc` (fuelled); returns data and the
final `j`. -/
def partitionLoop (pv : Chapter) : Nat → List Chapter → Nat → Nat → List Chapter × Nat
  | 0, l, _, j => (l, j)
  | fuel + 1, l, i, j =>
    let i2 := advanceI l pv j (j + 2) i
    let j2 := advanceJ l pv i2 (j + 2) j
    if i2 > j2 then (l, j2)
    else partitionLoop pv fuel (cswap l i2 j2) (i2 + 1) (j2 - 1)

/-- Go `partitionCmpFunc(data, a, b, pivot, cmp)`: Hoare partition around
`data[pivot]`; returns (data, newpivot, alreadyPartitioned). -/
def partitionGo (l : List Chapter) (a b pivot : Nat) : List Chapter × Nat × Bool :=
  let l := cswap l a pivot
  let pv := cget l a
  let i := advanceI l pv (b - 1) b (a + 1)
  let j := advanceJ l pv i b (b - 1)
  if i > j then (cswap l j a, j, true)
  else
    let l2 := cswap l i j
    let r := partitionLoop pv b l2 (i + 1) (j - 1)
    (cswap r.1 r.2 a, r.2, false)

/-- `for i <= j && !(cmp(pv, data[i]) < 0) { i++ }` (fuelled). -/
def peAdvanceI (l : List Chapter) (pv : Chapter) (j : Nat) : Nat → Nat → Nat
  | 0, i => i
  | fuel + 1, i =>
    if i ≤ j ∧ ¬ goCmpChapter pv (cget l i) < 0 then peAdvanceI l pv j fuel (i + 1)
    else i

/-- `for i <= j && cmp(pv, data[j]) < 0 { j-- }` (fuelled). -/
def peAdvanceJ (l : List Chapter) (pv : Chapter) (i : Nat) : Nat → Nat → Nat
  | 0, j => j
  | fuel + 1, j =>
    if i ≤ j ∧ goCmpChapter pv (cget l j) < 0 then peAdvanceJ l pv i fuel (j - 1)
    else j

/-- The loop of Go `partitionEqualCmpFunc` (fuelled); returns data and the
final `i`. -/
def peLoop (pv : Chapter) : Nat → List Chapter → Nat → Nat → List Chapter × Nat
  | 0, l, i, _ => (l, i)
  | fuel + 1, l, i, j =>
    let i2 := peAdvanceI l pv j (j + 2) i
    let j2 := peAdvanceJ l pv i2 (j + 2) j
    if i2 > j2 then (l, i2)
    else peLoop pv fuel (cswap l i2 j2) (i2 + 1) (j2 - 1)

/-- Go `partitionEqualCmpFunc(data, a, b, pivot, cmp)`. -/
def partitionEqualGo (l : List Chapter) (a b pivot : Nat) : List Chapter × Nat :=
  let l := cswap l a pivot
  let pv := cget l a
  peLoop pv b l (a + 1) (b - 1)

/-- Go `pdqsortCmpFunc(data, a, b, limit, cmp)` (`maxInsertion = 12`); the
outer `for` and the recursive calls both consume fuel. -/
def pdqsortLoop :
    Nat → List Chapter → Nat → Nat → Nat → Bool → Bool → List Chapter
  | 0, l, _, _, _, _, _ => l
  | fuel + 1, l, a, b, limit, wasBalanced, wasPartitioned =>
    let length := b - a
    if length ≤ 12 then insertionSortGo l a b
    else if limit = 0 then heapSortGo l a b
    else
      let lr := if wasBalanced then (l, limit) else (breakPatternsGo l a b, limit - 1)
      let l := lr.1
      let limit := lr.2
      let ph := choosePivot l a b
      let lp :=
        if ph.2 = SortedHint.decreasing then
          (reverseRangeGo l a b, (b - 1) - (ph.1 - a))
        else (l, ph.1)
      let l := lp.1
      let pivot := lp.2
      let hint :=
        if ph.2 = SortedHint.decreasing then SortedHint.increasing else ph.2
      let tryRes :=
        if wasBalanced && wasPartitioned && decide (hint = SortedHint.increasing)
        then pdqTryInsertionSort l a b
        else (l, false)
      if tryRes.2 then tryRes.1
      else
        let l := tryRes.1
        if 0 < a ∧ ¬ goCmpChapter (cget l (a - 1)) (cget l pivot) < 0 then
          let pm := partitionEqualGo l a b pivot
          pdqsortLoop fuel pm.1 pm.2 b limit wasBalanced wasPartitioned
        else
          let pmb := partitionGo l a b pivot
          let l := pmb.1
          let mid := pmb.2.1
          let wasPartitioned2 := pmb.2.2
          let leftLen := mid - a
          let rightLen := b - mid
          let balanceThreshold := length / 8
          let wasBalanced2 : Bool := decide (min leftLen rightLen ≥ balanceThreshold)
          let limit := limit - 1
          if leftLen < rightLen then
            let l := pdqsortLoop fuel l a mid limit true true
            pdqsortLoop fuel l (mid + 1) b limit wasBalanced2 wasPartitioned2
          else
            let l := pdqsortLoop fuel l (mid + 1) b limit true true
            pdqsortLoop fuel l a mid limit wasBalanced2 wasPartitioned2

/-- Go `slices.SortFunc(x, cmp)` with the chapter comparator: pdqsort of the
whole slice with `limit = bits.Len(len)`.  The fuel strictly dominates the
recursion depth. -/
def goSortFunc (l : List Chapter) : List Chapter :=
  pdqsortLoop (2 * l.length + 64) l 0 l.length (bitsLen l.length) true true

/-- The chapter stage of `getMetadata`: one `Chapter` per CHAP frame (title
text, start time), in frame order, then `slices.SortFunc` by start. -/
def getMetadataChapters (frames : List (String × Int)) : List Chapter :=
  goSortFunc (frames.map fun f => ⟨f.1, f.2⟩)

/-- Stable insertion into the reversal of a sorted prefix (proof-side
companion of `insInner`). -/
def rinsert (x : Chapter) : List Chapter → List Chapter
  | [] => [x]
  | y :: ys => if goCmpChapter x y < 0 then y :: rinsert x ys else x :: y :: ys

/-- Stable insertion sort over a reversed accumulator (proof-side companion of
`insOuter`). -/
def ssortRev (ru : List Chapter) : List Chapter → List Chapter
  | [] => ru.reverse
  | x :: v => ssortRev (rinsert x ru) v

/-- Decidable equality for `Except`, so concrete codec results can be checked
by `decide`. -/
instance {α β : Type} [DecidableEq α] [DecidableEq β] :
    DecidableEq (Except α β) := fun x y => by
  cases x <;> cases y <;>
    first
    | (rename_i a b
       exact if h : a = b then Decidable.isTrue (by rw [h])
         else Decidable.isFalse (by simp [h]))
    | exact Decidable.isFalse (by simp)

/-! ## Lemmas: digits, values, padding -/

theorem toNat_ofNat_small (n : Nat) (h : n < 55296) : (Char.ofNat n).toNat = n := by
  unfold Char.ofNat
  split
  · rfl
  · rename_i hn
    exact absurd (Or.inl h) hn

theorem char_ne_of_toNat_ne {c d : Char} (h : c.toNat ≠ d.toNat) : c ≠ d :=
  fun he => h (he ▸ rfl)

theorem digitChar_toNat (d : Nat) (h : d ≤ 9) : (digitChar d).toNat = 48 + d :=
  toNat_ofNat_small _ (by omega)

theorem isDigitChar_digitChar (d : Nat) (h : d ≤ 9) : isDigitChar (digitChar d) = true := by
  simp [isDigitChar, digitChar_toNat d h]
  omega

theorem charsVal_foldl (cs : List Char) (acc : Nat) :
    cs.foldl (fun a c => 10 * a + (c.toNat - 48)) acc
      = acc * 10 ^ cs.length + charsVal cs := by
  induction cs generalizing acc with
  | nil => simp [charsVal]
  | cons c rest ih =>
    simp only [List.foldl_cons, List.length_cons, charsVal]
    rw [ih, ih (10 * 0 + (c.toNat - 48))]
    ring

theorem charsVal_cons (c : Char) (cs : List Char) :
    charsVal (c :: cs) = (c.toNat - 48) * 10 ^ cs.length + charsVal cs := by
  simp only [charsVal, List.foldl_cons]
  rw [charsVal_foldl]
  simp [charsVal]

theorem charsVal_append (a b : List Char) :
    charsVal (a ++ b) = charsVal a * 10 ^ b.length + charsVal b := by
  simp only [charsVal, List.foldl_append]
  rw [charsVal_foldl]
  rfl

theorem natDigitsAux_congr (f1 : Nat) :
    ∀ (f2 n : Nat), n < f1 → n < f2 → natDigitsAux f1 n = natDigitsAux f2 n := by
  induction f1 with
  | zero => intro f2 n h1; omega
  | succ f1 ih =>
    intro f2 n h1 h2
    rcases f2 with _ | f2
    · omega
    · unfold natDigitsAux
      split
      · rfl
      · rename_i hn
        rw [ih f2 (n / 10) (by omega) (by omega)]

theorem natDigits_eq (n : Nat) :
    natDigits n =
      if n < 10 then [digitChar n]
      else natDigits (n / 10) ++ [digitChar (n % 10)] := by
  unfold natDigits
  conv_lhs => rw [natDigitsAux]
  split
  · rfl
  · rw [natDigitsAux_congr n (n / 10 + 1) (n / 10) (by omega) (by omega)]

theorem natDigits_ne_nil (n : Nat) : natDigits n ≠ [] := by
  rw [natDigits_eq]
  split
  · simp
  · simp

theorem natDigits_all_digit (n : Nat) : ∀ c ∈ natDigits n, isDigitChar c = true := by
  induction n using Nat.strong_induction_on with
  | _ n ih =>
    intro c hc
    rw [natDigits_eq] at hc
    by_cases h : n < 10
    · rw [if_pos h] at hc
      simp at hc
      subst hc
      exact isDigitChar_digitChar n (by omega)
    · rw [if_neg h] at hc
      rcases List.mem_append.mp hc with h1 | h1
      · exact ih (n / 10) (by omega) c h1
      · simp at h1
        subst h1
        exact isDigitChar_digitChar _ (by omega)

theorem charsVal_natDigits (n : Nat) : charsVal (natDigits n) = n := by
  induction n using Nat.strong_induction_on with
  | _ n ih =>
    rw [natDigits_eq]
    by_cases h : n < 10
    · rw [if_pos h, charsVal_cons]
      simp [charsVal, digitChar_toNat n (by omega)]
    · rw [if_neg h, charsVal_append, ih (n / 10) (by omega), charsVal_cons]
      simp only [List.length_nil, pow_zero, mul_one, charsVal, List.foldl_nil,
        List.length_cons, pow_succ]
      rw [digitChar_toNat (n % 10) (by omega)]
      omega

theorem natDigits_length_le (n : Nat) :
    ∀ (k : Nat), 1 ≤ k → n < 10 ^ k → (natDigits n).length ≤ k := by
  induction n using Nat.strong_induction_on with
  | _ n ih =>
    intro k hk h
    rw [natDigits_eq]
    by_cases hn : n < 10
    · rw [if_pos hn]
      simpa using hk
    · rw [if_neg hn]
      simp only [List.length_append, List.length_cons, List.length_nil]
      have hk2 : 2 ≤ k := by
        by_contra hc
        interval_cases k
        omega
      have hpow : 10 ^ k = 10 ^ (k - 1) * 10 := by
        conv_lhs => rw [show k = (k - 1) + 1 by omega]
        ring
      have hdiv : n / 10 < 10 ^ (k - 1) :=
        (Nat.div_lt_iff_lt_mul (by omega)).mpr (by omega)
      have := ih (n / 10) (by omega) (k - 1) (by omega) hdiv
      omega

theorem charsVal_replicate_zero (k : Nat) :
    charsVal (List.replicate k (digitChar 0)) = 0 := by
  induction k with
  | zero => rfl
  | succ k ih =>
    rw [List.replicate_succ, charsVal_cons, ih]
    simp [digitChar_toNat 0 (by omega)]

theorem padNat_all_digit (w n : Nat) : ∀ c ∈ padNat w n, isDigitChar c = true := by
  intro c hc
  rcases List.mem_append.mp hc with h | h
  · rw [List.eq_of_mem_replicate h]
    exact isDigitChar_digitChar 0 (by omega)
  · exact natDigits_all_digit n c h

theorem charsVal_padNat (w n : Nat) : charsVal (padNat w n) = n := by
  unfold padNat
  rw [charsVal_append, charsVal_replicate_zero, charsVal_natDigits]
  simp

theorem padNat_length (w n : Nat) (hw : 1 ≤ w) (h : n < 10 ^ w) :
    (padNat w n).length = w := by
  unfold padNat
  have := natDigits_length_le n w hw h
  simp only [List.length_append, List.length_replicate]
  omega

theorem padNat_ne_nil (w n : Nat) : padNat w n ≠ [] := by
  unfold padNat
  intro h
  rcases List.append_eq_nil.mp h with ⟨_, h2⟩
  exact natDigits_ne_nil n h2

/-! ## Lemmas: `strconv.Atoi` -/

theorem goAtoi_digits (cs : List Char) (h1 : cs ≠ [])
    (h2 : ∀ c ∈ cs, isDigitChar c = true)
    (h3 : charsVal cs ≤ 9223372036854775807) :
    goAtoi cs = some ((charsVal cs : Nat) : Int) := by
  rcases cs with _ | ⟨c, rest⟩
  · exact absurd rfl h1
  · have hcd : isDigitChar c = true := h2 c (List.mem_cons_self c rest)
    have hc48 : 48 ≤ c.toNat := by
      simp [isDigitChar] at hcd
      omega
    have hplus : ¬ c = Char.ofNat 43 := by
      apply char_ne_of_toNat_ne
      rw [toNat_ofNat_small 43 (by omega)]
      omega
    have hminus : ¬ c = Char.ofNat 45 := by
      apply char_ne_of_toNat_ne
      rw [toNat_ofNat_small 45 (by omega)]
      omega
    have hall : (c :: rest).all isDigitChar = true := List.all_eq_true.mpr h2
    unfold goAtoi
    simp [hplus, hminus, hall, h3]

/-! ## Lemmas: splitting -/

theorem splitOnChar_of_not_mem (sep : Char) (cs : List Char) (h : sep ∉ cs) :
    splitOnChar sep cs = [cs] := by
  induction cs with
  | nil => rfl
  | cons c rest ih =>
    have hne : ¬ c = sep := by
      intro he
      exact h (he ▸ List.mem_cons_self c rest)
    have ih2 := ih (fun hm => h (List.mem_cons_of_mem c hm))
    conv_lhs => rw [splitOnChar, if_neg hne, ih2]

theorem splitOnChar_append (sep : Char) (a b : List Char) (h : sep ∉ a) :
    splitOnChar sep (a ++ sep :: b) = a :: splitOnChar sep b := by
  induction a with
  | nil =>
    simp only [List.nil_append]
    rw [splitOnChar, if_pos rfl]
  | cons c rest ih =>
    have hne : ¬ c = sep := by
      intro he
      exact h (he ▸ List.mem_cons_self c rest)
    have ih2 := ih (fun hm => h (List.mem_cons_of_mem c hm))
    simp only [List.cons_append]
    conv_lhs => rw [splitOnChar, if_neg hne, ih2]

theorem splitN2_of_not_mem (sep : Char) (cs : List Char) (h : sep ∉ cs) :
    splitN2 sep cs = [cs] := by
  induction cs with
  | nil => rfl
  | cons c rest ih =>
    have hne : ¬ c = sep := by
      intro he
      exact h (he ▸ List.mem_cons_self c rest)
    have ih2 := ih (fun hm => h (List.mem_cons_of_mem c hm))
    conv_lhs => rw [splitN2, if_neg hne, ih2]

theorem splitN2_append (sep : Char) (a b : List Char) (h : sep ∉ a) :
    splitN2 sep (a ++ sep :: b) = [a, b] := by
  induction a with
  | nil =>
    simp only [List.nil_append]
    rw [splitN2, if_pos rfl]
  | cons c rest ih =>
    have hne : ¬ c = sep := by
      intro he
      exact h (he ▸ List.mem_cons_self c rest)
    have ih2 := ih (fun hm => h (List.mem_cons_of_mem c hm))
    simp only [List.cons_append]
    conv_lhs => rw [splitN2, if_neg hne, ih2]

/-! ## Lemmas: trimming and unquoting -/

theorem goTrimSpace_eq_self (cs : List Char)
    (hh : ∀ c, cs.head? = some c → isGoSpace c = false)
    (hl : ∀ c, cs.getLast? = some c → isGoSpace c = false) :
    goTrimSpace cs = cs := by
  rcases cs with _ | ⟨c, rest⟩
  · rfl
  · unfold goTrimSpace
    rw [List.dropWhile_cons_of_neg (show ¬ isGoSpace c = true by simp [hh c rfl])]
    rcases hrev : (c :: rest).reverse with _ | ⟨d, rrest⟩
    · simp at hrev
    · have hd : (c :: rest).getLast? = some d := by
        rw [← List.head?_reverse, hrev]
        rfl
      rw [List.dropWhile_cons_of_neg (show ¬ isGoSpace d = true by simp [hl d hd])]
      rw [← hrev, List.reverse_reverse]

theorem unquote_eq_self (cs : List Char)
    (h : ∀ c, cs.head? = some c → c ≠ squote ∧ c ≠ dquote) :
    unquote cs = cs := by
  unfold unquote
  rcases cs with _ | ⟨c, rest⟩
  · simp
  · rcases h c rfl with ⟨h1, h2⟩
    split
    · rfl
    · rw [if_neg (by simp [h1]), if_neg (by simp [h2])]

theorem plainChar_spec {c : Char} (h : plainChar c = true) :
    32 ≤ c.toNat ∧ c.toNat ≤ 126 ∧ c ≠ dquote ∧ c ≠ bslash := by
  simp only [plainChar, Bool.and_eq_true, decide_eq_true_eq] at h
  exact ⟨h.1.1.1, h.1.1.2, by simpa using h.1.2, by simpa using h.2⟩

theorem quoteEscapeChar_plain {c : Char} (h : plainChar c = true) :
    quoteEscapeChar c = [c] := by
  rcases plainChar_spec h with ⟨h1, h2, h3, h4⟩
  unfold quoteEscapeChar
  rw [if_neg (by simp [h3, h4]), if_pos (by simp [isPrintChar]; omega)]

theorem goQuote_plain (cs : List Char) (h : ∀ c ∈ cs, plainChar c = true) :
    goQuote cs = dquote :: (cs ++ [dquote]) := by
  unfold goQuote
  congr 1
  induction cs with
  | nil => rfl
  | cons c rest ih =>
    rw [List.foldr_cons, ih (fun x hx => h x (List.mem_cons_of_mem c hx)),
      quoteEscapeChar_plain (h c (List.mem_cons_self c rest))]
    rfl

theorem unquoteCharsF_plain (fuel : Nat) :
    ∀ (cs : List Char), cs.length ≤ fuel → (∀ c ∈ cs, plainChar c = true) →
      unquoteCharsF fuel cs = some cs := by
  induction fuel with
  | zero =>
    intro cs hlen _
    rcases cs with _ | ⟨c, rest⟩
    · rfl
    · simp at hlen
  | succ fuel ih =>
    intro cs hlen h
    rcases cs with _ | ⟨c, rest⟩
    · rfl
    · rcases plainChar_spec (h c (List.mem_cons_self c rest)) with ⟨h1, _, h3, h4⟩
      have h10 : ¬ c = Char.ofNat 10 := by
        apply char_ne_of_toNat_ne
        rw [toNat_ofNat_small 10 (by omega)]
        omega
      unfold unquoteCharsF
      rw [if_neg (by simp [h3, h10]), if_neg (by simp [h4]),
        ih rest (by simp at hlen; omega)
          (fun x hx => h x (List.mem_cons_of_mem c hx))]
      rfl

theorem unquoteChars_plain (cs : List Char) (h : ∀ c ∈ cs, plainChar c = true) :
    unquoteChars cs = some cs :=
  unquoteCharsF_plain cs.length cs (Nat.le_refl _) h

theorem goUnquote_goQuote (cs : List Char) (h : ∀ c ∈ cs, plainChar c = true) :
    goUnquote (goQuote cs) = some cs := by
  rw [goQuote_plain cs h]
  have hred : goUnquote (dquote :: (cs ++ [dquote])) = unquoteChars cs := by
    unfold goUnquote
    simp [List.getLast?_concat, List.dropLast_concat]
  rw [hred]
  exact unquoteChars_plain cs h

/-- C10: the `unquote` helper is total (it is a plain function into strings,
with no error outcome) and never rejects: strings of length at most 1 are
returned unchanged; surrounding single quotes are stripped, without any
unescaping, exactly when the string both begins and ends with a single quote;
and a string that begins with a double quote but is not valid double-quoted
syntax (`strconv.Unquote` fails) is returned unchanged, as is any string that
begins with neither quote character. -/
theorem unquote_total_spec :
    (∀ cs : List Char, cs.length ≤ 1 → unquote cs = cs) ∧
    (∀ cs : List Char, 2 ≤ cs.length → cs.head? = some squote →
      cs.getLast? = some squote → unquote cs = (cs.drop 1).dropLast) ∧
    (∀ cs : List Char, cs.head? = some squote → cs.getLast? ≠ some squote →
      unquote cs = cs) ∧
    (∀ cs : List Char, cs.head? = some dquote → goUnquote cs = none →
      unquote cs = cs) ∧
    (∀ cs : List Char, (∀ c, cs.head? = some c → c ≠ squote ∧ c ≠ dquote) →
      unquote cs = cs) := by
  refine ⟨?_, ?_, ?_, ?_, unquote_eq_self⟩
  · intro cs h
    unfold unquote
    rw [if_pos h]
  · intro cs hlen hh hl
    unfold unquote
    rw [if_neg (by omega), if_pos (by rw [hh, hl]; simp)]
  · intro cs hh hl
    unfold unquote
    split
    · rfl
    · rw [if_neg (by simp [hh, hl]), if_neg (by rw [hh]; simp [squote, dquote])]
  · intro cs hh hgo
    unfold unquote
    split
    · rfl
    · rw [if_neg (by rw [hh]; simp [squote, dquote])]
      split
      · rename_i r heq
        rw [hgo] at heq
        cases heq
      · rfl

/-! ## C8: NumberInSet parsing -/

/-- C8 counterexample: the claim reads "split once on `/`", under which
`"1/2/3"` would have right part `"2/3"`, a parse failure, hence Total = 0;
the code splits on every `/` and takes the second field, giving Total = 2. -/
theorem numberInSet_splitOnce_counterexample :
    numberInSetUnmarshalYAML "1/2/3" = Except.ok ⟨1, 2⟩ ∧
    specSplitOncePair ("1/2/3".data) = (1, 0) ∧
    (⟨1, 2⟩ : NumberInSet) ≠ (⟨1, 0⟩ : NumberInSet) := by
  refine ⟨by decide, by decide, by decide⟩

/-- C8 (amended): NumberInSet parsing is total and never returns an error:
the input is unquoted and split on every `/`; the first part is parsed as an
integer into Current (parse failure or overflow yields 0), the second part,
if present and non-empty, into Total (parse failure yields 0), parts beyond
the second being ignored; malformed input degrades to zero values. -/
theorem numberInSetUnmarshal_total :
    (∀ s : String, ∃ n : NumberInSet, numberInSetUnmarshalYAML s = Except.ok n) ∧
    numberInSetUnmarshalYAML "3/10" = Except.ok ⟨3, 10⟩ ∧
    numberInSetUnmarshalYAML "1/2/3" = Except.ok ⟨1, 2⟩ ∧
    numberInSetUnmarshalYAML "abc" = Except.ok ⟨0, 0⟩ ∧
    numberInSetUnmarshalYAML "3/x" = Except.ok ⟨3, 0⟩ ∧
    numberInSetUnmarshalYAML "/7" = Except.ok ⟨0, 7⟩ ∧
    numberInSetUnmarshalYAML " '3/10' " = Except.ok ⟨3, 10⟩ ∧
    numberInSetUnmarshalYAML "99999999999999999999" = Except.ok ⟨0, 0⟩ := by
  refine ⟨fun s => ⟨_, rfl⟩, by decide, by decide, by decide, by decide,
    by decide, by decide, by decide⟩

/-! ## C4: millisecond padding and truncation -/

theorem isDigitChar_toNat {c : Char} (h : isDigitChar c = true) :
    48 ≤ c.toNat ∧ c.toNat ≤ 57 := by
  simp [isDigitChar] at h
  omega

theorem digit_ne_self_of_toNat {c : Char} (h : isDigitChar c = true)
    (n : Nat) (hn : n < 48 ∨ 57 < n) (hv : n < 55296) : c ≠ Char.ofNat n := by
  rcases isDigitChar_toNat h with ⟨h1, h2⟩
  apply char_ne_of_toNat_ne
  rw [toNat_ofNat_small n hv]
  omega

theorem digits_not_mem {cs : List Char} (hd : ∀ c ∈ cs, isDigitChar c = true)
    (n : Nat) (hn : n < 48 ∨ 57 < n) (hv : n < 55296) : Char.ofNat n ∉ cs := by
  intro hm
  exact absurd rfl (digit_ne_self_of_toNat (hd _ hm) n hn hv)

theorem charsVal_lt (cs : List Char) (hd : ∀ c ∈ cs, isDigitChar c = true) :
    charsVal cs < 10 ^ cs.length := by
  induction cs with
  | nil => simp [charsVal]
  | cons c rest ih =>
    rw [charsVal_cons]
    have h9 : c.toNat - 48 ≤ 9 := by
      rcases isDigitChar_toNat (hd c (List.mem_cons_self c rest)) with ⟨_, h2⟩
      omega
    have hrec := ih (fun x hx => hd x (List.mem_cons_of_mem c hx))
    have hpow : (c.toNat - 48) * 10 ^ rest.length ≤ 9 * 10 ^ rest.length :=
      Nat.mul_le_mul_right _ h9
    simp only [List.length_cons, pow_succ]
    omega

theorem goAtoi_digits_short (cs : List Char) (h1 : cs ≠ [])
    (h2 : ∀ c ∈ cs, isDigitChar c = true) (h3 : cs.length ≤ 18) :
    goAtoi cs = some ((charsVal cs : Nat) : Int) := by
  apply goAtoi_digits cs h1 h2
  have := charsVal_lt cs h2
  have hle : (10 : Nat) ^ cs.length ≤ 10 ^ 18 := Nat.pow_le_pow_right (by omega) h3
  omega

/-- The fractional part of the seconds segment: right-padded with zeros to
three digits when short, truncated to the first three digits when long. -/
theorem parseSecondsSegment_dot (ip frac : List Char)
    (hip : ip ≠ []) (hfrac : frac ≠ [])
    (hipd : ∀ c ∈ ip, isDigitChar c = true)
    (hfd : ∀ c ∈ frac, isDigitChar c = true)
    (hlen : ip.length ≤ 18) :
    parseSecondsSegment (ip ++ '.' :: frac) =
      Except.ok (((charsVal ip : Nat) : Int),
        ((charsVal (if frac.length > 3 then frac.take 3
          else frac ++ List.replicate (3 - frac.length) '0') : Nat) : Int)) := by
  have hdotip : '.' ∉ ip := digits_not_mem hipd 46 (by omega) (by omega)
  have hdotfrac : '.' ∉ frac := digits_not_mem hfd 46 (by omega) (by omega)
  have hcontains : (ip ++ '.' :: frac).contains '.' = true :=
    List.elem_iff.mpr (by simp)
  have hsplit : splitOnChar '.' (ip ++ '.' :: frac) = [ip, frac] := by
    rw [splitOnChar_append '.' ip frac hdotip,
      splitOnChar_of_not_mem '.' frac hdotfrac]
  have hmsd : ∀ c ∈ (if frac.length > 3 then frac.take 3
      else frac ++ List.replicate (3 - frac.length) '0'), isDigitChar c = true := by
    intro c hc
    split at hc
    · exact hfd c (List.mem_of_mem_take hc)
    · rcases List.mem_append.mp hc with h | h
      · exact hfd c h
      · rw [List.eq_of_mem_replicate h]
        decide
  have hmsne : (if frac.length > 3 then frac.take 3
      else frac ++ List.replicate (3 - frac.length) '0') ≠ [] := by
    split
    · exact List.length_pos.mp (by simp; omega)
    · simp [hfrac]
  have hmslen : (if frac.length > 3 then frac.take 3
      else frac ++ List.replicate (3 - frac.length) '0').length ≤ 18 := by
    split
    · simp only [List.length_take]
      omega
    · simp only [List.length_append, List.length_replicate]
      omega
  unfold parseSecondsSegment
  rw [if_pos hcontains, hsplit]
  simp only []
  rw [goAtoi_digits_short ip hip hipd hlen]
  simp only []
  rw [if_pos (by simp [List.length_pos.mpr hfrac])]
  rw [goAtoi_digits_short _ hmsne hmsd hmslen]

/-- A seconds segment with no dot parses to (value, 0 ms). -/
theorem parseSecondsSegment_nodot (cs : List Char) (hne : cs ≠ [])
    (hd : ∀ c ∈ cs, isDigitChar c = true) (hlen : cs.length ≤ 18) :
    parseSecondsSegment cs = Except.ok (((charsVal cs : Nat) : Int), 0) := by
  have hnc : ¬ (cs.contains '.' = true) := by
    rw [List.elem_iff]
    exact digits_not_mem hd 46 (by omega) (by omega)
  unfold parseSecondsSegment
  rw [if_neg hnc, goAtoi_digits_short cs hne hd hlen]

/-- C4: when the seconds segment of a chapter time token contains a dot, the
fractional part becomes the millisecond count by right-padding with zeros to
exactly 3 digits when shorter and truncating to the first 3 digits when
longer, never rounding; in particular `1:30.5` is 500 ms, `1:30.12` is
120 ms, and `1:30.1234` is 123 ms. -/
theorem chapter_millis_pad_truncate :
    (∀ ip frac : List Char, ip ≠ [] → frac ≠ [] →
      (∀ c ∈ ip, isDigitChar c = true) → (∀ c ∈ frac, isDigitChar c = true) →
      ip.length ≤ 18 →
      parseSecondsSegment (ip ++ '.' :: frac) =
        Except.ok (((charsVal ip : Nat) : Int),
          ((charsVal (if frac.length > 3 then frac.take 3
            else frac ++ List.replicate (3 - frac.length) '0') : Nat) : Int))) ∧
    chapterUnmarshalYAML "1:30.5 Main Topic"
      = Except.ok ⟨"Main Topic", 90500000000⟩ ∧
    chapterUnmarshalYAML "1:30.12 Main Topic"
      = Except.ok ⟨"Main Topic", 90120000000⟩ ∧
    chapterUnmarshalYAML "1:30.1234 Main Topic"
      = Except.ok ⟨"Main Topic", 90123000000⟩ :=
  ⟨parseSecondsSegment_dot, by decide, by decide, by decide⟩

/-- Witness for C4: the general padding/truncation statement applied at
fractional parts of lengths 4 and 1. -/
theorem chapter_millis_pad_truncate_witness :
    parseSecondsSegment ("30.1234".data) = Except.ok (30, 123) ∧
    parseSecondsSegment ("30.5".data) = Except.ok (30, 500) := by
  constructor
  · rw [show ("30.1234".data) = "30".data ++ '.' :: "1234".data from rfl,
      chapter_millis_pad_truncate.1 "30".data "1234".data (by decide) (by decide)
        (by decide) (by decide) (by decide)]
    decide
  · rw [show ("30.5".data) = "30".data ++ '.' :: "5".data from rfl,
      chapter_millis_pad_truncate.1 "30".data "5".data (by decide) (by decide)
        (by decide) (by decide) (by decide)]
    decide

/-! ## C1: chapter round-trip -/

theorem intToChars_natCast (n : Nat) : intToChars (n : Int) = natDigits n := by
  unfold intToChars
  rw [if_neg (Int.not_lt.mpr (Int.natCast_nonneg n))]
  simp

theorem padInt_natCast (w n : Nat) : padInt w (n : Int) = padNat w n := by
  unfold padInt padNat
  rw [if_neg (Int.not_lt.mpr (Int.natCast_nonneg n))]
  simp

/-- The WebVTT time token over the naturals, for a whole-millisecond start. -/
theorem chapterTimeChars_nat (msv : Nat) :
    chapterTimeChars ((msv : Int) * 1000000) =
      (if msv % 1000 = 0 then
        if 0 < msv / 3600000 then
          natDigits (msv / 3600000) ++ ':' :: padNat 2 (msv % 3600000 / 60000)
            ++ ':' :: padNat 2 (msv % 60000 / 1000)
        else
          natDigits (msv % 3600000 / 60000) ++ ':' :: padNat 2 (msv % 60000 / 1000)
      else
        if 0 < msv / 3600000 then
          natDigits (msv / 3600000) ++ ':' :: padNat 2 (msv % 3600000 / 60000)
            ++ ':' :: padNat 2 (msv % 60000 / 1000) ++ '.' :: padNat 3 (msv % 1000)
        else
          natDigits (msv % 3600000 / 60000) ++ ':' :: padNat 2 (msv % 60000 / 1000)
            ++ '.' :: padNat 3 (msv % 1000)) := by
  have h1 : ((msv : Int) * 1000000).tdiv 1000000 = (msv : Int) :=
    Int.mul_tdiv_cancel _ (by norm_num)
  have hh : (msv : Int).tdiv 3600000 = ((msv / 3600000 : Nat) : Int) := rfl
  have hm : ((msv : Int).tmod 3600000).tdiv 60000
      = ((msv % 3600000 / 60000 : Nat) : Int) := rfl
  have hs : ((msv : Int).tmod 60000).tdiv 1000
      = ((msv % 60000 / 1000 : Nat) : Int) := rfl
  have hl : (msv : Int).tmod 1000 = ((msv % 1000 : Nat) : Int) := rfl
  unfold chapterTimeChars
  simp only [h1, hh, hm, hs, hl, intToChars_natCast, padInt_natCast,
    Int.natCast_eq_zero, Int.natCast_pos]

theorem plainChar_of_toNat (c : Char) (h1 : 32 ≤ c.toNat) (h2 : c.toNat ≤ 126)
    (h3 : c.toNat ≠ 34) (h4 : c.toNat ≠ 92) : plainChar c = true := by
  simp only [plainChar, Bool.and_eq_true, decide_eq_true_eq]
  refine ⟨⟨⟨h1, h2⟩, ?_⟩, ?_⟩
  · exact char_ne_of_toNat_ne
      (by have hq : dquote.toNat = 34 := by decide
          rw [hq]; exact h3)
  · exact char_ne_of_toNat_ne
      (by have hq : bslash.toNat = 92 := by decide
          rw [hq]; exact h4)

/-- Every character of the time token is a digit, a colon, or a dot. -/
theorem timeToken_chars (msv : Nat) :
    ∀ c ∈ chapterTimeChars ((msv : Int) * 1000000),
      isDigitChar c = true ∨ c = ':' ∨ c = '.' := by
  intro c hc
  rw [chapterTimeChars_nat] at hc
  split_ifs at hc <;>
    simp only [List.mem_append, List.mem_cons] at hc <;>
    (repeat' rcases hc with hc | hc) <;>
    first
      | exact Or.inl (natDigits_all_digit _ _ hc)
      | exact Or.inl (padNat_all_digit _ _ _ hc)
      | exact Or.inr (Or.inl hc)
      | exact Or.inr (Or.inr hc)
      | decide

theorem digits_char_not_mem {cs : List Char}
    (hd : ∀ c ∈ cs, isDigitChar c = true) (c : Char)
    (h : c.toNat < 48 ∨ 57 < c.toNat) : c ∉ cs := by
  intro hm
  rcases isDigitChar_toNat (hd _ hm) with ⟨h1, h2⟩
  omega

/-- No character of the time token is a space. -/
theorem timeToken_no_space (msv : Nat) :
    ' ' ∉ chapterTimeChars ((msv : Int) * 1000000) := by
  intro hm
  rcases timeToken_chars msv ' ' hm with h | h | h
  · rcases isDigitChar_toNat h with ⟨h1, _⟩
    have : (' ' : Char).toNat = 32 := by decide
    omega
  · exact absurd h (by decide)
  · exact absurd h (by decide)

/-- Every character of the time token is plain. -/
theorem timeToken_plain (msv : Nat) :
    ∀ c ∈ chapterTimeChars ((msv : Int) * 1000000), plainChar c = true := by
  intro c hc
  rcases timeToken_chars msv c hc with h | h | h
  · rcases isDigitChar_toNat h with ⟨h1, h2⟩
    exact plainChar_of_toNat c (by omega) (by omega) (by omega) (by omega)
  · subst h
    decide
  · subst h
    decide

/-- The time token starts with a digit. -/
theorem timeToken_head (msv : Nat) :
    ∀ c, (chapterTimeChars ((msv : Int) * 1000000)).head? = some c →
      isDigitChar c = true := by
  intro c hc
  rw [chapterTimeChars_nat] at hc
  split_ifs at hc <;>
    ((try simp only [List.append_assoc] at hc)
     rw [List.head?_append_of_ne_nil _ (natDigits_ne_nil _)] at hc
     exact natDigits_all_digit _ _ (List.mem_of_mem_head? hc))

theorem goAtoi_natDigits (n : Nat) (h : n < 10 ^ 18) :
    goAtoi (natDigits n) = some ((n : Nat) : Int) := by
  rw [goAtoi_digits_short _ (natDigits_ne_nil _) (natDigits_all_digit _)
    (natDigits_length_le n 18 (by omega) h), charsVal_natDigits]

theorem goAtoi_padNat (w n : Nat) (hw : 1 ≤ w) (hwe : w ≤ 18) (h : n < 10 ^ w) :
    goAtoi (padNat w n) = some ((n : Nat) : Int) := by
  rw [goAtoi_digits_short _ (padNat_ne_nil _ _) (padNat_all_digit _ _)
    (by rw [padNat_length w n hw h]; omega), charsVal_padNat]

/-- The seconds segment `SS` of the canonical token. -/
theorem parseSecondsSegment_pad2 (s : Nat) (hs : s < 100) :
    parseSecondsSegment (padNat 2 s) = Except.ok (((s : Nat) : Int), 0) := by
  rw [parseSecondsSegment_nodot _ (padNat_ne_nil _ _) (padNat_all_digit _ _)
    (by rw [padNat_length 2 s (by omega) (by norm_num; omega)]; omega),
    charsVal_padNat]

/-- The seconds segment `SS.mmm` of the canonical token. -/
theorem parseSecondsSegment_pad23 (s l : Nat) (hs : s < 100) (hl : l < 1000) :
    parseSecondsSegment (padNat 2 s ++ '.' :: padNat 3 l)
      = Except.ok (((s : Nat) : Int), ((l : Nat) : Int)) := by
  rw [parseSecondsSegment_dot (padNat 2 s) (padNat 3 l) (padNat_ne_nil _ _)
    (padNat_ne_nil _ _) (padNat_all_digit _ _) (padNat_all_digit _ _)
    (by rw [padNat_length 2 s (by omega) (by norm_num; omega)]; omega)]
  rw [padNat_length 3 l (by omega) (by norm_num; omega)]
  rw [if_neg (by omega)]
  simp [charsVal_padNat]

/-- Parsing the canonical time token recovers the millisecond count. -/
theorem parseChapterTime_token (msv : Nat) (hb : msv ≤ 9223372036854775) :
    parseChapterTime (chapterTimeChars ((msv : Int) * 1000000))
      = Except.ok ((msv : Nat) : Int) := by
  have h18 : (10 : Nat) ^ 18 = 1000000000000000000 := by norm_num
  have hHb : msv / 3600000 < 10 ^ 18 := by rw [h18]; omega
  have hM : msv % 3600000 / 60000 < 100 := by omega
  have hS : msv % 60000 / 1000 < 100 := by omega
  have hMb : msv % 3600000 / 60000 < 10 ^ 18 := by rw [h18]; omega
  have hM2 : msv % 3600000 / 60000 < 10 ^ 2 := by norm_num; omega
  have hL : msv % 1000 < 1000 := by omega
  have hcH : ':' ∉ natDigits (msv / 3600000) :=
    digits_char_not_mem (natDigits_all_digit _) ':' (Or.inr (by decide))
  have hcM0 : ':' ∉ natDigits (msv % 3600000 / 60000) :=
    digits_char_not_mem (natDigits_all_digit _) ':' (Or.inr (by decide))
  have hcM : ':' ∉ padNat 2 (msv % 3600000 / 60000) :=
    digits_char_not_mem (padNat_all_digit _ _) ':' (Or.inr (by decide))
  have hcS : ':' ∉ padNat 2 (msv % 60000 / 1000) :=
    digits_char_not_mem (padNat_all_digit _ _) ':' (Or.inr (by decide))
  have hcSL : ':' ∉ padNat 2 (msv % 60000 / 1000) ++ '.' :: padNat 3 (msv % 1000) := by
    intro hm
    rcases List.mem_append.mp hm with h | h
    · exact hcS h
    · rcases List.mem_cons.mp h with h | h
      · exact absurd h (by decide)
      · exact digits_char_not_mem (padNat_all_digit _ _) ':' (Or.inr (by decide)) h
  rw [chapterTimeChars_nat]
  by_cases hLz : msv % 1000 = 0 <;> by_cases hHz : 0 < msv / 3600000
  · rw [if_pos hLz, if_pos hHz]
    simp only [List.append_assoc, List.cons_append]
    unfold parseChapterTime
    rw [splitOnChar_append ':' _ _ hcH, splitOnChar_append ':' _ _ hcM,
      splitOnChar_of_not_mem ':' _ hcS]
    dsimp only
    rw [goAtoi_natDigits _ hHb]
    dsimp only
    rw [goAtoi_padNat 2 _ (by omega) (by omega) hM2]
    dsimp only
    rw [parseSecondsSegment_pad2 _ hS]
    dsimp only
    congr 1
    push_cast
    omega
  · rw [if_pos hLz, if_neg hHz]
    unfold parseChapterTime
    rw [splitOnChar_append ':' _ _ hcM0, splitOnChar_of_not_mem ':' _ hcS]
    dsimp only
    rw [goAtoi_natDigits _ hMb]
    dsimp only
    rw [parseSecondsSegment_pad2 _ hS]
    dsimp only
    congr 1
    push_cast
    omega
  · rw [if_neg hLz, if_pos hHz]
    simp only [List.append_assoc, List.cons_append]
    unfold parseChapterTime
    rw [splitOnChar_append ':' _ _ hcH, splitOnChar_append ':' _ _ hcM,
      splitOnChar_of_not_mem ':' _ hcSL]
    dsimp only
    rw [goAtoi_natDigits _ hHb]
    dsimp only
    rw [goAtoi_padNat 2 _ (by omega) (by omega) hM2]
    dsimp only
    rw [parseSecondsSegment_pad23 _ _ hS hL]
    dsimp only
    congr 1
    push_cast
    omega
  · rw [if_neg hLz, if_neg hHz]
    simp only [List.append_assoc, List.cons_append]
    unfold parseChapterTime
    rw [splitOnChar_append ':' _ _ hcM0, splitOnChar_of_not_mem ':' _ hcSL]
    dsimp only
    rw [goAtoi_natDigits _ hMb]
    dsimp only
    rw [parseSecondsSegment_pad23 _ _ hS hL]
    dsimp only
    congr 1
    push_cast
    omega

theorem char_eq_of_toNat_eq {c d : Char} (h : c.toNat = d.toNat) : c = d := by
  have h1 := Char.ofNat_toNat c
  have h2 := Char.ofNat_toNat d
  rw [← h1, ← h2, h]

theorem isGoSpace_false_of_plain {c : Char} (hp : plainChar c = true)
    (hne : c ≠ ' ') : isGoSpace c = false := by
  rcases plainChar_spec hp with ⟨h1, h2, _, _⟩
  have h32 : c.toNat ≠ 32 := fun he =>
    hne (char_eq_of_toNat_eq (by rw [he]; decide))
  simp only [isGoSpace, Bool.or_eq_false_iff, Bool.and_eq_false_iff,
    decide_eq_false_iff_not]
  omega

theorem isGoSpace_false_of_digit {c : Char} (hd : isDigitChar c = true) :
    isGoSpace c = false := by
  rcases isDigitChar_toNat hd with ⟨h1, h2⟩
  simp only [isGoSpace, Bool.or_eq_false_iff, Bool.and_eq_false_iff,
    decide_eq_false_iff_not]
  omega

/-- The time token is never empty. -/
theorem timeToken_ne_nil (msv : Nat) :
    chapterTimeChars ((msv : Int) * 1000000) ≠ [] := by
  rw [chapterTimeChars_nat]
  split_ifs <;> simp

/-- Trimming and unquoting the marshalled chapter string gives back the raw
token-and-title string, whether or not the YAML encoder quoted it. -/
theorem chapter_marshal_pre (msv : Nat) (title : List Char)
    (htp : ∀ c ∈ title, plainChar c = true)
    (htne : title ≠ [])
    (htl : title.getLast? ≠ some ' ') :
    unquote (goTrimSpace
        (chapterMarshalYAML ⟨String.mk title, (msv : Int) * 1000000⟩).data)
      = chapterTimeChars ((msv : Int) * 1000000) ++ ' ' :: title := by
  have hsdata : (chapterString ⟨String.mk title, (msv : Int) * 1000000⟩).data
      = chapterTimeChars ((msv : Int) * 1000000) ++ ' ' :: title := rfl
  have hplainall : ∀ c ∈ chapterTimeChars ((msv : Int) * 1000000) ++ ' ' :: title,
      plainChar c = true := by
    intro c hc
    rcases List.mem_append.mp hc with h | h
    · exact timeToken_plain msv c h
    · rcases List.mem_cons.mp h with h | h
      · subst h
        decide
      · exact htp c h
  have hhead : ∀ c, (chapterTimeChars ((msv : Int) * 1000000) ++ ' ' :: title).head?
      = some c → isDigitChar c = true := by
    intro c hc
    rw [List.head?_append_of_ne_nil _ (timeToken_ne_nil msv)] at hc
    exact timeToken_head msv c hc
  have hlast : (chapterTimeChars ((msv : Int) * 1000000) ++ ' ' :: title).getLast?
      = title.getLast? := by
    rw [List.getLast?_append_of_ne_nil _ (by simp : (' ' :: title) ≠ [])]
    rw [show (' ' :: title) = [' '] ++ title from rfl,
      List.getLast?_append_of_ne_nil _ htne]
  unfold chapterMarshalYAML
  dsimp only
  rcases hq : isNeedQuoted (chapterString ⟨String.mk title, (msv : Int) * 1000000⟩).data with _ | _
  · -- not quoted
    simp only [Bool.false_eq_true, reduceIte]
    rw [hsdata]
    rw [goTrimSpace_eq_self _
      (fun c hc => isGoSpace_false_of_digit (hhead c hc))
      (fun c hc => by
        rw [hlast] at hc
        exact isGoSpace_false_of_plain (htp c (List.mem_of_mem_getLast? hc))
          (fun he => htl (he ▸ hc)))]
    exact unquote_eq_self _ (fun c hc => by
      rcases isDigitChar_toNat (hhead c hc) with ⟨h1, h2⟩
      have h39 : squote.toNat = 39 := by decide
      have h34 : dquote.toNat = 34 := by decide
      exact ⟨char_ne_of_toNat_ne (by omega), char_ne_of_toNat_ne (by omega)⟩)
  · -- quoted
    simp only [reduceIte]
    rw [hsdata, goQuote_plain _ hplainall]
    have htrim : goTrimSpace (dquote ::
        ((chapterTimeChars ((msv : Int) * 1000000) ++ ' ' :: title) ++ [dquote]))
        = dquote ::
        ((chapterTimeChars ((msv : Int) * 1000000) ++ ' ' :: title) ++ [dquote]) := by
      apply goTrimSpace_eq_self
      · intro c hc
        simp only [List.head?_cons, Option.some.injEq] at hc
        subst hc
        decide
      · intro c hc
        rw [show (dquote ::
            ((chapterTimeChars ((msv : Int) * 1000000) ++ ' ' :: title) ++ [dquote]))
            = (dquote :: (chapterTimeChars ((msv : Int) * 1000000) ++ ' ' :: title))
              ++ [dquote] by simp,
          List.getLast?_concat] at hc
        simp only [Option.some.injEq] at hc
        subst hc
        decide
    rw [htrim]
    have hgu : goUnquote (dquote ::
        ((chapterTimeChars ((msv : Int) * 1000000) ++ ' ' :: title) ++ [dquote]))
        = some (chapterTimeChars ((msv : Int) * 1000000) ++ ' ' :: title) := by
      rw [← goQuote_plain _ hplainall]
      exact goUnquote_goQuote _ hplainall
    unfold unquote
    rw [if_neg (by simp)]
    rw [if_neg (by simp [squote, dquote])]
    rw [if_pos (by simp)]
    rw [hgu]

/-- C1: for every Chapter whose start is a whole number of milliseconds (any
millisecond component in [0,999]) and whose title is made of plain printable
characters, is nonempty and has no trailing space, unmarshalling the marshalled
string recovers the Chapter exactly; in particular, a title containing a
colon-space and a title starting with a hash are quoted by the marshaller and
recovered verbatim by the parser. -/
theorem chapter_roundtrip :
    (∀ (msv : Nat) (title : List Char),
        msv ≤ 9223372036854775 →
        (∀ c ∈ title, plainChar c = true) →
        title ≠ [] →
        title.getLast? ≠ some ' ' →
        chapterUnmarshalYAML
            (chapterMarshalYAML ⟨String.mk title, (msv : Int) * 1000000⟩)
          = Except.ok ⟨String.mk title, (msv : Int) * 1000000⟩)
    ∧ (isNeedQuoted (chapterString
          ⟨String.mk ('T' :: "itle: With Colon".data), 90000000000⟩).data = true
        ∧ chapterUnmarshalYAML (chapterMarshalYAML
              ⟨String.mk ('T' :: "itle: With Colon".data), 90000000000⟩)
            = Except.ok ⟨String.mk ('T' :: "itle: With Colon".data), 90000000000⟩)
    ∧ (isNeedQuoted (chapterString
          ⟨String.mk ('#' :: " Hash Title".data), 90000000000⟩).data = true
        ∧ chapterUnmarshalYAML (chapterMarshalYAML
              ⟨String.mk ('#' :: " Hash Title".data), 90000000000⟩)
            = Except.ok ⟨String.mk ('#' :: " Hash Title".data), 90000000000⟩) := by
  refine ⟨?_, by decide, by decide⟩
  intro msv title hb htp htne htl
  unfold chapterUnmarshalYAML
  rw [chapter_marshal_pre msv title htp htne htl]
  unfold chapterParseBody
  rw [splitN2_append ' ' _ _ (timeToken_no_space msv)]
  dsimp only
  rw [parseChapterTime_token msv hb]

theorem chapter_roundtrip_witness :
    chapterUnmarshalYAML (chapterMarshalYAML
        ⟨String.mk "Main Topic".data, ((90500 : Nat) : Int) * 1000000⟩)
      = Except.ok ⟨String.mk "Main Topic".data, ((90500 : Nat) : Int) * 1000000⟩ :=
  chapter_roundtrip.1 90500 "Main Topic".data (by decide) (by decide)
    (by decide) (by decide)

theorem daysIn_le (y m : Nat) : daysIn y m ≤ 31 := by
  unfold daysIn
  split_ifs <;> omega

theorem trimUnquote_digits (cs : List Char)
    (hh : ∀ c, cs.head? = some c → isDigitChar c = true)
    (hl : ∀ c, cs.getLast? = some c → isDigitChar c = true) :
    unquote (goTrimSpace cs) = cs := by
  rw [goTrimSpace_eq_self cs (fun c hc => isGoSpace_false_of_digit (hh c hc))
      (fun c hc => isGoSpace_false_of_digit (hl c hc))]
  exact unquote_eq_self cs (fun c hc => by
    rcases isDigitChar_toNat (hh c hc) with ⟨h1, h2⟩
    have h39 : squote.toNat = 39 := by decide
    have h34 : dquote.toNat = 34 := by decide
    exact ⟨char_ne_of_toNat_ne (by omega), char_ne_of_toNat_ne (by omega)⟩)

theorem getLast?_append_cons (A : List Char) (x : Char) (B : List Char)
    (hB : B ≠ []) : (A ++ x :: B).getLast? = B.getLast? := by
  rw [List.getLast?_append_of_ne_nil _ (by simp)]
  rw [show x :: B = [x] ++ B from rfl, List.getLast?_append_of_ne_nil _ hB]

theorem parse4Year_pad (y : Nat) (rest : List Char) (hy : y < 10000) :
    parse4Year (padNat 4 y ++ rest) = some (y, rest) := by
  have hlen : (padNat 4 y).length = 4 := padNat_length 4 y (by omega) (by omega)
  have hdig := padNat_all_digit 4 y
  have hval : charsVal (padNat 4 y) = y := charsVal_padNat 4 y
  rcases hp : padNat 4 y with _ | ⟨a, _ | ⟨b, _ | ⟨c, _ | ⟨d, _ | ⟨e, tl⟩⟩⟩⟩⟩ <;>
    rw [hp] at hlen <;> simp at hlen
  rw [hp] at hdig hval
  have ha := hdig a (by simp)
  have hb := hdig b (by simp)
  have hc := hdig c (by simp)
  have hd := hdig d (by simp)
  simp only [List.cons_append, List.nil_append]
  unfold parse4Year
  dsimp only
  rw [ha, hb, hc, hd]
  simp only [Bool.and_self, if_true, reduceIte]
  exact congrArg some (congrArg (·, rest) hval)

theorem parseFixed2_pad (n : Nat) (rest : List Char) (hn : n < 100) :
    parseFixed2 (padNat 2 n ++ rest) = some (n, rest) := by
  have hlen : (padNat 2 n).length = 2 := padNat_length 2 n (by omega) (by omega)
  have hdig := padNat_all_digit 2 n
  have hval : charsVal (padNat 2 n) = n := charsVal_padNat 2 n
  rcases hp : padNat 2 n with _ | ⟨a, _ | ⟨b, _ | ⟨c, tl⟩⟩⟩ <;>
    rw [hp] at hlen <;> simp at hlen
  rw [hp] at hdig hval
  have ha := hdig a (by simp)
  have hb := hdig b (by simp)
  simp only [List.cons_append, List.nil_append]
  unfold parseFixed2
  dsimp only
  rw [ha, hb]
  simp only [Bool.and_self, if_true, reduceIte]
  exact congrArg some (congrArg (·, rest) hval)

theorem parseHour12_pad (n : Nat) (rest : List Char) (hn : n < 100) :
    parseHour12 (padNat 2 n ++ rest) = some (n, rest) := by
  have hlen : (padNat 2 n).length = 2 := padNat_length 2 n (by omega) (by omega)
  have hdig := padNat_all_digit 2 n
  have hval : charsVal (padNat 2 n) = n := charsVal_padNat 2 n
  rcases hp : padNat 2 n with _ | ⟨a, _ | ⟨b, _ | ⟨c, tl⟩⟩⟩ <;>
    rw [hp] at hlen <;> simp at hlen
  rw [hp] at hdig hval
  have ha := hdig a (by simp)
  have hb := hdig b (by simp)
  simp only [List.cons_append, List.nil_append]
  unfold parseHour12
  dsimp only
  rw [ha, hb]
  simp only [if_true, reduceIte]
  exact congrArg some (congrArg (·, rest) hval)

theorem expectChar_cons (c : Char) (rest : List Char) :
    expectChar c (c :: rest) = some rest := by
  unfold expectChar
  dsimp only
  rw [if_pos rfl]

theorem parseLayoutYear_canon (y : Nat) (h4 : y < 10000)
    (hval : validDateTime ⟨y, 1, 1, 0, 0, 0⟩ = true) :
    parseLayoutYear (padNat 4 y) = some ⟨y, 1, 1, 0, 0, 0⟩ := by
  unfold parseLayoutYear
  rw [show padNat 4 y = padNat 4 y ++ ([] : List Char) by simp,
    parse4Year_pad y [] h4]
  simp [guard, hval]

theorem parseLayoutSecond_fail_year (y : Nat) (h4 : y < 10000) :
    parseLayoutSecond (padNat 4 y) = none := by
  unfold parseLayoutSecond
  rw [show padNat 4 y = padNat 4 y ++ ([] : List Char) by simp,
    parse4Year_pad y [] h4]
  rfl

theorem expectChar_nil (c : Char) : expectChar c [] = none := rfl

theorem parse4Year_pad0 (y : Nat) (hy : y < 10000) :
    parse4Year (padNat 4 y) = some (y, []) := by
  rw [show padNat 4 y = padNat 4 y ++ ([] : List Char) by simp]
  exact parse4Year_pad y [] hy

theorem parseFixed2_pad0 (n : Nat) (hn : n < 100) :
    parseFixed2 (padNat 2 n) = some (n, []) := by
  rw [show padNat 2 n = padNat 2 n ++ ([] : List Char) by simp]
  exact parseFixed2_pad n [] hn

theorem parseHour12_pad0 (n : Nat) (hn : n < 100) :
    parseHour12 (padNat 2 n) = some (n, []) := by
  rw [show padNat 2 n = padNat 2 n ++ ([] : List Char) by simp]
  exact parseHour12_pad n [] hn

theorem parseLayoutMinute_fail_year (y : Nat) (h4 : y < 10000) :
    parseLayoutMinute (padNat 4 y) = none := by
  unfold parseLayoutMinute
  rw [parse4Year_pad0 y h4]
  rfl

theorem parseLayoutHour_fail_year (y : Nat) (h4 : y < 10000) :
    parseLayoutHour (padNat 4 y) = none := by
  unfold parseLayoutHour
  rw [parse4Year_pad0 y h4]
  rfl

theorem parseLayoutDay_fail_year (y : Nat) (h4 : y < 10000) :
    parseLayoutDay (padNat 4 y) = none := by
  unfold parseLayoutDay
  rw [parse4Year_pad0 y h4]
  rfl

theorem parseLayoutMonth_fail_year (y : Nat) (h4 : y < 10000) :
    parseLayoutMonth (padNat 4 y) = none := by
  unfold parseLayoutMonth
  rw [parse4Year_pad0 y h4]
  rfl

theorem some_bind' {α β : Type} (a : α) (f : α → Option β) :
    (some a >>= f) = f a := rfl

theorem none_bind' {α β : Type} (f : α → Option β) :
    ((none : Option α) >>= f) = none := rfl

theorem parseLayoutMonth_canon (y mo : Nat) (h4 : y < 10000) (hmo : mo < 100)
    (hval : validDateTime ⟨y, mo, 1, 0, 0, 0⟩ = true) :
    parseLayoutMonth (padNat 4 y ++ '-' :: padNat 2 mo)
      = some ⟨y, mo, 1, 0, 0, 0⟩ := by
  unfold parseLayoutMonth
  simp only [h4, hmo, parse4Year_pad, parseFixed2_pad0, expectChar_cons, some_bind']
  rw [hval]
  rfl

theorem parseLayoutSecond_fail_month (y mo : Nat) (h4 : y < 10000)
    (hmo : mo < 100) :
    parseLayoutSecond (padNat 4 y ++ '-' :: padNat 2 mo) = none := by
  unfold parseLayoutSecond
  simp only [h4, hmo, parse4Year_pad, parseFixed2_pad0, expectChar_cons,
    expectChar_nil, some_bind', none_bind']

theorem parseLayoutMinute_fail_month (y mo : Nat) (h4 : y < 10000)
    (hmo : mo < 100) :
    parseLayoutMinute (padNat 4 y ++ '-' :: padNat 2 mo) = none := by
  unfold parseLayoutMinute
  simp only [h4, hmo, parse4Year_pad, parseFixed2_pad0, expectChar_cons,
    expectChar_nil, some_bind', none_bind']

theorem parseLayoutHour_fail_month (y mo : Nat) (h4 : y < 10000)
    (hmo : mo < 100) :
    parseLayoutHour (padNat 4 y ++ '-' :: padNat 2 mo) = none := by
  unfold parseLayoutHour
  simp only [h4, hmo, parse4Year_pad, parseFixed2_pad0, expectChar_cons,
    expectChar_nil, some_bind', none_bind']

theorem parseLayoutDay_fail_month (y mo : Nat) (h4 : y < 10000)
    (hmo : mo < 100) :
    parseLayoutDay (padNat 4 y ++ '-' :: padNat 2 mo) = none := by
  unfold parseLayoutDay
  simp only [h4, hmo, parse4Year_pad, parseFixed2_pad0, expectChar_cons,
    expectChar_nil, some_bind', none_bind']

theorem parseLayoutDay_canon (y mo d : Nat) (h4 : y < 10000) (hmo : mo < 100)
    (hd : d < 100) (hval : validDateTime ⟨y, mo, d, 0, 0, 0⟩ = true) :
    parseLayoutDay (padNat 4 y ++ '-' :: (padNat 2 mo ++ '-' :: padNat 2 d))
      = some ⟨y, mo, d, 0, 0, 0⟩ := by
  unfold parseLayoutDay
  simp only [h4, hmo, hd, parse4Year_pad, parseFixed2_pad,
    parseFixed2_pad0, expectChar_cons, some_bind']
  rw [hval]
  rfl

theorem parseLayoutSecond_fail_day (y mo d : Nat) (h4 : y < 10000)
    (hmo : mo < 100) (hd : d < 100) :
    parseLayoutSecond (padNat 4 y ++ '-' :: (padNat 2 mo ++ '-' :: padNat 2 d))
      = none := by
  unfold parseLayoutSecond
  simp only [h4, hmo, hd, parse4Year_pad, parseFixed2_pad, parseFixed2_pad0,
    expectChar_cons, expectChar_nil, some_bind', none_bind']

theorem parseLayoutMinute_fail_day (y mo d : Nat) (h4 : y < 10000)
    (hmo : mo < 100) (hd : d < 100) :
    parseLayoutMinute (padNat 4 y ++ '-' :: (padNat 2 mo ++ '-' :: padNat 2 d))
      = none := by
  unfold parseLayoutMinute
  simp only [h4, hmo, hd, parse4Year_pad, parseFixed2_pad, parseFixed2_pad0,
    expectChar_cons, expectChar_nil, some_bind', none_bind']

theorem parseLayoutHour_fail_day (y mo d : Nat) (h4 : y < 10000)
    (hmo : mo < 100) (hd : d < 100) :
    parseLayoutHour (padNat 4 y ++ '-' :: (padNat 2 mo ++ '-' :: padNat 2 d))
      = none := by
  unfold parseLayoutHour
  simp only [h4, hmo, hd, parse4Year_pad, parseFixed2_pad, parseFixed2_pad0,
    expectChar_cons, expectChar_nil, some_bind', none_bind']

theorem parseLayoutHour_canon (y mo d h : Nat) (h4 : y < 10000)
    (hmo : mo < 100) (hd : d < 100) (hh : h < 100)
    (hval : validDateTime ⟨y, mo, d, h, 0, 0⟩ = true) :
    parseLayoutHour (padNat 4 y ++ '-' :: (padNat 2 mo ++ '-' ::
        (padNat 2 d ++ 'T' :: padNat 2 h)))
      = some ⟨y, mo, d, h, 0, 0⟩ := by
  unfold parseLayoutHour
  simp only [h4, hmo, hd, hh, parse4Year_pad, parseFixed2_pad,
    parseHour12_pad0, expectChar_cons, some_bind']
  rw [hval]
  rfl

theorem parseLayoutSecond_fail_hour (y mo d h : Nat) (h4 : y < 10000)
    (hmo : mo < 100) (hd : d < 100) (hh : h < 100) :
    parseLayoutSecond (padNat 4 y ++ '-' :: (padNat 2 mo ++ '-' ::
        (padNat 2 d ++ 'T' :: padNat 2 h)))
      = none := by
  unfold parseLayoutSecond
  simp only [h4, hmo, hd, hh, parse4Year_pad, parseFixed2_pad, parseHour12_pad0,
    expectChar_cons, expectChar_nil, some_bind', none_bind']

theorem parseLayoutMinute_fail_hour (y mo d h : Nat) (h4 : y < 10000)
    (hmo : mo < 100) (hd : d < 100) (hh : h < 100) :
    parseLayoutMinute (padNat 4 y ++ '-' :: (padNat 2 mo ++ '-' ::
        (padNat 2 d ++ 'T' :: padNat 2 h)))
      = none := by
  unfold parseLayoutMinute
  simp only [h4, hmo, hd, hh, parse4Year_pad, parseFixed2_pad, parseHour12_pad0,
    expectChar_cons, expectChar_nil, some_bind', none_bind']

theorem parseLayoutMinute_canon (y mo d h mi : Nat) (h4 : y < 10000)
    (hmo : mo < 100) (hd : d < 100) (hh : h < 100) (hmi : mi < 100)
    (hval : validDateTime ⟨y, mo, d, h, mi, 0⟩ = true) :
    parseLayoutMinute (padNat 4 y ++ '-' :: (padNat 2 mo ++ '-' ::
        (padNat 2 d ++ 'T' :: (padNat 2 h ++ ':' :: padNat 2 mi))))
      = some ⟨y, mo, d, h, mi, 0⟩ := by
  unfold parseLayoutMinute
  simp only [h4, hmo, hd, hh, hmi, parse4Year_pad, parseFixed2_pad,
    parseFixed2_pad0, parseHour12_pad, expectChar_cons, some_bind']
  rw [hval]
  rfl

theorem parseLayoutSecond_fail_minute (y mo d h mi : Nat) (h4 : y < 10000)
    (hmo : mo < 100) (hd : d < 100) (hh : h < 100) (hmi : mi < 100) :
    parseLayoutSecond (padNat 4 y ++ '-' :: (padNat 2 mo ++ '-' ::
        (padNat 2 d ++ 'T' :: (padNat 2 h ++ ':' :: padNat 2 mi))))
      = none := by
  unfold parseLayoutSecond
  simp only [h4, hmo, hd, hh, hmi, parse4Year_pad, parseFixed2_pad,
    parseFixed2_pad0, parseHour12_pad, expectChar_cons, expectChar_nil, some_bind', none_bind']

theorem parseLayoutSecond_canon (y mo d h mi se : Nat) (h4 : y < 10000)
    (hmo : mo < 100) (hd : d < 100) (hh : h < 100) (hmi : mi < 100)
    (hse : se < 100)
    (hval : validDateTime ⟨y, mo, d, h, mi, se⟩ = true) :
    parseLayoutSecond (padNat 4 y ++ '-' :: (padNat 2 mo ++ '-' ::
        (padNat 2 d ++ 'T' :: (padNat 2 h ++ ':' ::
          (padNat 2 mi ++ ':' :: padNat 2 se)))))
      = some ⟨y, mo, d, h, mi, se⟩ := by
  unfold parseLayoutSecond
  simp only [h4, hmo, hd, hh, hmi, hse, parse4Year_pad,
    parseFixed2_pad, parseFixed2_pad0, parseHour12_pad, expectChar_cons, some_bind']
  rw [hval]
  rfl

theorem append_cons_ne_nil (A : List Char) (x : Char) (B : List Char) :
    A ++ x :: B ≠ [] := by simp

/-- C2: for every well-formed non-zero timestamp, of any of the six
precisions Year through Second, unmarshalling the marshalled string recovers
the timestamp exactly, instant and precision alike. -/
theorem timestamp_roundtrip (t : Timestamp) (hv : validTimestamp t)
    (hnz : t.time ≠ goZeroTime) :
    timestampUnmarshalYAML (timestampString t) = Except.ok t := by
  obtain ⟨⟨y, mo, d, h, mi, se⟩, p⟩ := t
  obtain ⟨hy, hval, hm1, hd1, hh0, hmi0, hse0⟩ := hv
  have hvb := hval
  simp only [validDateTime, Bool.and_eq_true, decide_eq_true_eq] at hvb
  obtain ⟨⟨⟨⟨⟨⟨hmo1, hmo12⟩, hd1p⟩, hdle⟩, hh23⟩, hmi59⟩, hse59⟩ := hvb
  have hy' : y ≤ 9999 := hy
  have hd31 : d ≤ 31 := le_trans hdle (daysIn_le y mo)
  have h4' : y < 10000 := by omega
  have hmo' : mo < 100 := by omega
  have hd' : d < 100 := by omega
  have hh' : h < 100 := by omega
  have hmi' : mi < 100 := by omega
  have hse' : se < 100 := by omega
  unfold timestampUnmarshalYAML timestampString
  rw [if_neg hnz]
  cases p with
  | year =>
    have hmoe : mo = 1 := hm1 (show (0 : Nat) < 1 by decide)
    have hde : d = 1 := hd1 (show (0 : Nat) < 2 by decide)
    have hhe : h = 0 := hh0 (show (0 : Nat) < 3 by decide)
    have hmie : mi = 0 := hmi0 (show (0 : Nat) < 4 by decide)
    have hsee : se = 0 := hse0 (show (0 : Nat) < 5 by decide)
    subst hmoe hde hhe hmie hsee
    dsimp only
    rw [trimUnquote_digits _
      (fun c hc => padNat_all_digit 4 y c (List.mem_of_mem_head? hc))
      (fun c hc => padNat_all_digit 4 y c (List.mem_of_mem_getLast? hc))]
    unfold timestampParseBody
    rw [if_neg (padNat_ne_nil 4 y)]
    simp only [parseLayoutSecond_fail_year y h4',
      parseLayoutMinute_fail_year y h4', parseLayoutHour_fail_year y h4',
      parseLayoutDay_fail_year y h4', parseLayoutMonth_fail_year y h4',
      parseLayoutYear_canon y h4' hval]
  | month =>
    have hde : d = 1 := hd1 (show (1 : Nat) < 2 by decide)
    have hhe : h = 0 := hh0 (show (1 : Nat) < 3 by decide)
    have hmie : mi = 0 := hmi0 (show (1 : Nat) < 4 by decide)
    have hsee : se = 0 := hse0 (show (1 : Nat) < 5 by decide)
    subst hde hhe hmie hsee
    dsimp only
    rw [trimUnquote_digits _
      (fun c hc => by
        rw [List.head?_append_of_ne_nil _ (padNat_ne_nil 4 y)] at hc
        exact padNat_all_digit 4 y c (List.mem_of_mem_head? hc))
      (fun c hc => by
        rw [getLast?_append_cons _ _ _ (padNat_ne_nil 2 mo)] at hc
        exact padNat_all_digit 2 mo c (List.mem_of_mem_getLast? hc))]
    unfold timestampParseBody
    rw [if_neg (append_cons_ne_nil _ _ _)]
    simp only [parseLayoutSecond_fail_month y mo h4' hmo',
      parseLayoutMinute_fail_month y mo h4' hmo',
      parseLayoutHour_fail_month y mo h4' hmo',
      parseLayoutDay_fail_month y mo h4' hmo',
      parseLayoutMonth_canon y mo h4' hmo' hval]
  | day =>
    have hhe : h = 0 := hh0 (show (2 : Nat) < 3 by decide)
    have hmie : mi = 0 := hmi0 (show (2 : Nat) < 4 by decide)
    have hsee : se = 0 := hse0 (show (2 : Nat) < 5 by decide)
    subst hhe hmie hsee
    dsimp only
    simp only [List.append_assoc, List.cons_append]
    rw [trimUnquote_digits _
      (fun c hc => by
        rw [List.head?_append_of_ne_nil _ (padNat_ne_nil 4 y)] at hc
        exact padNat_all_digit 4 y c (List.mem_of_mem_head? hc))
      (fun c hc => by
        rw [getLast?_append_cons _ _ _ (append_cons_ne_nil _ _ _),
          getLast?_append_cons _ _ _ (padNat_ne_nil 2 d)] at hc
        exact padNat_all_digit 2 d c (List.mem_of_mem_getLast? hc))]
    unfold timestampParseBody
    rw [if_neg (append_cons_ne_nil _ _ _)]
    simp only [parseLayoutSecond_fail_day y mo d h4' hmo' hd',
      parseLayoutMinute_fail_day y mo d h4' hmo' hd',
      parseLayoutHour_fail_day y mo d h4' hmo' hd',
      parseLayoutDay_canon y mo d h4' hmo' hd' hval]
  | hour =>
    have hmie : mi = 0 := hmi0 (show (3 : Nat) < 4 by decide)
    have hsee : se = 0 := hse0 (show (3 : Nat) < 5 by decide)
    subst hmie hsee
    dsimp only
    simp only [List.append_assoc, List.cons_append]
    rw [trimUnquote_digits _
      (fun c hc => by
        rw [List.head?_append_of_ne_nil _ (padNat_ne_nil 4 y)] at hc
        exact padNat_all_digit 4 y c (List.mem_of_mem_head? hc))
      (fun c hc => by
        rw [getLast?_append_cons _ _ _ (append_cons_ne_nil _ _ _),
          getLast?_append_cons _ _ _ (append_cons_ne_nil _ _ _),
          getLast?_append_cons _ _ _ (padNat_ne_nil 2 h)] at hc
        exact padNat_all_digit 2 h c (List.mem_of_mem_getLast? hc))]
    unfold timestampParseBody
    rw [if_neg (append_cons_ne_nil _ _ _)]
    simp only [parseLayoutSecond_fail_hour y mo d h h4' hmo' hd' hh',
      parseLayoutMinute_fail_hour y mo d h h4' hmo' hd' hh',
      parseLayoutHour_canon y mo d h h4' hmo' hd' hh' hval]
  | minute =>
    have hsee : se = 0 := hse0 (show (4 : Nat) < 5 by decide)
    subst hsee
    dsimp only
    simp only [List.append_assoc, List.cons_append]
    rw [trimUnquote_digits _
      (fun c hc => by
        rw [List.head?_append_of_ne_nil _ (padNat_ne_nil 4 y)] at hc
        exact padNat_all_digit 4 y c (List.mem_of_mem_head? hc))
      (fun c hc => by
        rw [getLast?_append_cons _ _ _ (append_cons_ne_nil _ _ _),
          getLast?_append_cons _ _ _ (append_cons_ne_nil _ _ _),
          getLast?_append_cons _ _ _ (append_cons_ne_nil _ _ _),
          getLast?_append_cons _ _ _ (padNat_ne_nil 2 mi)] at hc
        exact padNat_all_digit 2 mi c (List.mem_of_mem_getLast? hc))]
    unfold timestampParseBody
    rw [if_neg (append_cons_ne_nil _ _ _)]
    simp only [parseLayoutSecond_fail_minute y mo d h mi h4' hmo' hd' hh' hmi',
      parseLayoutMinute_canon y mo d h mi h4' hmo' hd' hh' hmi' hval]
  | second =>
    dsimp only
    simp only [List.append_assoc, List.cons_append]
    rw [trimUnquote_digits _
      (fun c hc => by
        rw [List.head?_append_of_ne_nil _ (padNat_ne_nil 4 y)] at hc
        exact padNat_all_digit 4 y c (List.mem_of_mem_head? hc))
      (fun c hc => by
        rw [getLast?_append_cons _ _ _ (append_cons_ne_nil _ _ _),
          getLast?_append_cons _ _ _ (append_cons_ne_nil _ _ _),
          getLast?_append_cons _ _ _ (append_cons_ne_nil _ _ _),
          getLast?_append_cons _ _ _ (append_cons_ne_nil _ _ _),
          getLast?_append_cons _ _ _ (padNat_ne_nil 2 se)] at hc
        exact padNat_all_digit 2 se c (List.mem_of_mem_getLast? hc))]
    unfold timestampParseBody
    rw [if_neg (append_cons_ne_nil _ _ _)]
    simp only [parseLayoutSecond_canon y mo d h mi se h4' hmo' hd' hh' hmi'
      hse' hval]

theorem timestamp_roundtrip_witness :
    timestampUnmarshalYAML (timestampString
        ⟨⟨2023, 7, 14, 9, 58, 7⟩, Precision.second⟩)
      = Except.ok ⟨⟨2023, 7, 14, 9, 58, 7⟩, Precision.second⟩ :=
  timestamp_roundtrip ⟨⟨2023, 7, 14, 9, 58, 7⟩, Precision.second⟩
    (by refine ⟨by decide, by decide, ?_, ?_, ?_, ?_, ?_⟩ <;> decide)
    (by decide)

/-- C3: timestamp parsing tries the six layouts in the order Second, Minute,
Hour, Day, Month, Year, the first successful layout fixing the precision; the
empty input unmarshal produces the zero timestamp rather than an error, and an
input matching no layout produces a format error naming the offending
string. -/
theorem timestamp_parse_precedence :
    (timestampUnmarshalYAML "" = Except.ok ⟨goZeroTime, Precision.year⟩)
    ∧ (∀ str dt, str ≠ [] → parseLayoutSecond str = some dt →
        timestampParseBody str = Except.ok ⟨dt, Precision.second⟩)
    ∧ (∀ str dt, str ≠ [] → parseLayoutSecond str = none →
        parseLayoutMinute str = some dt →
        timestampParseBody str = Except.ok ⟨dt, Precision.minute⟩)
    ∧ (∀ str dt, str ≠ [] → parseLayoutSecond str = none →
        parseLayoutMinute str = none → parseLayoutHour str = some dt →
        timestampParseBody str = Except.ok ⟨dt, Precision.hour⟩)
    ∧ (∀ str dt, str ≠ [] → parseLayoutSecond str = none →
        parseLayoutMinute str = none → parseLayoutHour str = none →
        parseLayoutDay str = some dt →
        timestampParseBody str = Except.ok ⟨dt, Precision.day⟩)
    ∧ (∀ str dt, str ≠ [] → parseLayoutSecond str = none →
        parseLayoutMinute str = none → parseLayoutHour str = none →
        parseLayoutDay str = none → parseLayoutMonth str = some dt →
        timestampParseBody str = Except.ok ⟨dt, Precision.month⟩)
    ∧ (∀ str dt, str ≠ [] → parseLayoutSecond str = none →
        parseLayoutMinute str = none → parseLayoutHour str = none →
        parseLayoutDay str = none → parseLayoutMonth str = none →
        parseLayoutYear str = some dt →
        timestampParseBody str = Except.ok ⟨dt, Precision.year⟩)
    ∧ (∀ str, str ≠ [] → parseLayoutSecond str = none →
        parseLayoutMinute str = none → parseLayoutHour str = none →
        parseLayoutDay str = none → parseLayoutMonth str = none →
        parseLayoutYear str = none →
        timestampParseBody str
          = Except.error ("invalid timestamp format: " ++ String.mk str)) := by
  refine ⟨by decide, ?_, ?_, ?_, ?_, ?_, ?_, ?_⟩
  · intro str dt hne h1
    unfold timestampParseBody
    rw [if_neg hne]
    simp only [h1]
  · intro str dt hne h1 h2
    unfold timestampParseBody
    rw [if_neg hne]
    simp only [h1, h2]
  · intro str dt hne h1 h2 h3
    unfold timestampParseBody
    rw [if_neg hne]
    simp only [h1, h2, h3]
  · intro str dt hne h1 h2 h3 h4
    unfold timestampParseBody
    rw [if_neg hne]
    simp only [h1, h2, h3, h4]
  · intro str dt hne h1 h2 h3 h4 h5
    unfold timestampParseBody
    rw [if_neg hne]
    simp only [h1, h2, h3, h4, h5]
  · intro str dt hne h1 h2 h3 h4 h5 h6
    unfold timestampParseBody
    rw [if_neg hne]
    simp only [h1, h2, h3, h4, h5, h6]
  · intro str hne h1 h2 h3 h4 h5 h6
    unfold timestampParseBody
    rw [if_neg hne]
    simp only [h1, h2, h3, h4, h5, h6]

theorem timestamp_parse_precedence_witness :
    timestampParseBody "foo".data
        = Except.error ("invalid timestamp format: " ++ String.mk "foo".data)
    ∧ timestampParseBody "2024".data
        = Except.ok ⟨⟨2024, 1, 1, 0, 0, 0⟩, Precision.year⟩ :=
  ⟨timestamp_parse_precedence.2.2.2.2.2.2.2 "foo".data (by decide) (by decide)
      (by decide) (by decide) (by decide) (by decide) (by decide),
   timestamp_parse_precedence.2.2.2.2.2.2.1 "2024".data ⟨2024, 1, 1, 0, 0, 0⟩
      (by decide) (by decide) (by decide) (by decide) (by decide) (by decide)
      (by decide)⟩

theorem writeChapterFrames_length (chs : List Chapter) :
    ∀ (idx : Nat) (dur : Int),
      (writeChapterFrames idx chs dur).length = chs.length := by
  induction chs with
  | nil => intro idx dur; rfl
  | cons c rest ih =>
    intro idx dur
    simp only [writeChapterFrames, List.length_cons, ih]

theorem writeChapterFrames_getD (chs : List Chapter) :
    ∀ (idx : Nat) (dur : Int) (i : Nat), i < chs.length →
      ((writeChapterFrames idx chs dur).getD i
          ⟨"", 0, 0, 0, 0, "", ""⟩).startTime
        = (chs.getD i ⟨"", 0⟩).start
      ∧ ((writeChapterFrames idx chs dur).getD i
          ⟨"", 0, 0, 0, 0, "", ""⟩).endTime
        = (if i + 1 < chs.length then (chs.getD (i + 1) ⟨"", 0⟩).start else dur)
      ∧ ((writeChapterFrames idx chs dur).getD i
          ⟨"", 0, 0, 0, 0, "", ""⟩).startOffset = 4294967295
      ∧ ((writeChapterFrames idx chs dur).getD i
          ⟨"", 0, 0, 0, 0, "", ""⟩).endOffset = 4294967295 := by
  induction chs with
  | nil =>
    intro idx dur i hi
    simp at hi
  | cons c rest ih =>
    intro idx dur i hi
    rcases i with _ | j
    · cases rest with
      | nil => simp [writeChapterFrames]
      | cons nx tl => simp [writeChapterFrames]
    · have hj : j < rest.length := by simpa using hi
      have hrec := ih (idx + 1) dur j hj
      simpa [writeChapterFrames] using hrec

/-- C5: every chapter list of length n written with total audio duration d
produces n chapter frames; frame i starts at chapter i's start, ends at
chapter i+1's start (or at d for the last chapter), and always carries the
all-bits-set uint32 sentinel 4294967295 in both byte-offset fields. -/
theorem write_chapters_endtimes (chs : List Chapter) (dur : Int) :
    (writeMetadataChapters chs dur).length = chs.length
    ∧ ∀ i, i < chs.length →
      ((writeMetadataChapters chs dur).getD i
          ⟨"", 0, 0, 0, 0, "", ""⟩).startTime
        = (chs.getD i ⟨"", 0⟩).start
      ∧ ((writeMetadataChapters chs dur).getD i
          ⟨"", 0, 0, 0, 0, "", ""⟩).endTime
        = (if i + 1 < chs.length then (chs.getD (i + 1) ⟨"", 0⟩).start else dur)
      ∧ ((writeMetadataChapters chs dur).getD i
          ⟨"", 0, 0, 0, 0, "", ""⟩).startOffset = 4294967295
      ∧ ((writeMetadataChapters chs dur).getD i
          ⟨"", 0, 0, 0, 0, "", ""⟩).endOffset = 4294967295 :=
  ⟨writeChapterFrames_length chs 0 dur,
   fun i hi => writeChapterFrames_getD chs 0 dur i hi⟩

/-- The spec's end-to-end scenario Intro / Body / Outro with total duration
4:00, instantiating the C5 theorem. -/
theorem write_chapters_endtimes_witness :
    ((writeMetadataChapters
        [⟨"Intro", 0⟩, ⟨"Body", 90500000000000⟩, ⟨"Outro", 180000000000000⟩]
        240000000000000).getD 0 ⟨"", 0, 0, 0, 0, "", ""⟩).endTime
      = 90500000000000
    ∧ ((writeMetadataChapters
        [⟨"Intro", 0⟩, ⟨"Body", 90500000000000⟩, ⟨"Outro", 180000000000000⟩]
        240000000000000).getD 1 ⟨"", 0, 0, 0, 0, "", ""⟩).endTime
      = 180000000000000
    ∧ ((writeMetadataChapters
        [⟨"Intro", 0⟩, ⟨"Body", 90500000000000⟩, ⟨"Outro", 180000000000000⟩]
        240000000000000).getD 2 ⟨"", 0, 0, 0, 0, "", ""⟩).endTime
      = 240000000000000 :=
  ⟨((write_chapters_endtimes
      [⟨"Intro", 0⟩, ⟨"Body", 90500000000000⟩, ⟨"Outro", 180000000000000⟩]
      240000000000000).2 0 (by decide)).2.1,
   ((write_chapters_endtimes
      [⟨"Intro", 0⟩, ⟨"Body", 90500000000000⟩, ⟨"Outro", 180000000000000⟩]
      240000000000000).2 1 (by decide)).2.1,
   ((write_chapters_endtimes
      [⟨"Intro", 0⟩, ⟨"Body", 90500000000000⟩, ⟨"Outro", 180000000000000⟩]
      240000000000000).2 2 (by decide)).2.1⟩

/-- C6 counterexample: a tag whose modern TDRC frame is present but empty and
whose legacy year frame is "2024" yields NO date at all — the legacy branch is
an else of the frame-presence test, so "absent or empty" in the claim is wrong:
an empty-but-present modern frame suppresses the legacy fallback that would
otherwise produce the year-2024 timestamp. -/
theorem extractDate_empty_modern_counterexample :
    extractDate (some "") "2024" = none
    ∧ extractDate none "2024" = some ⟨⟨2024, 1, 1, 0, 0, 0⟩, Precision.year⟩ := by
  constructor
  · rfl
  · decide

/-- C6 amended: the date is parsed from the modern TDRC frame when that frame
is present and non-empty; the legacy year frame is consulted only when the
modern frame is absent altogether, and then a legacy year "2024" yields a
Year-precision timestamp that formats back to "2024". -/
theorem extractDate_fallback :
    (∀ txt ts, txt ≠ "" → timestampUnmarshalYAML txt = Except.ok ts →
        ∀ ly, extractDate (some txt) ly = some ts)
    ∧ (∀ ly ts, ly ≠ "" → timestampUnmarshalYAML ly = Except.ok ts →
        extractDate none ly = some ts)
    ∧ extractDate none "2024" = some ⟨⟨2024, 1, 1, 0, 0, 0⟩, Precision.year⟩
    ∧ timestampString ⟨⟨2024, 1, 1, 0, 0, 0⟩, Precision.year⟩ = "2024" := by
  refine ⟨?_, ?_, by decide, by decide⟩
  · intro txt ts hne hok ly
    unfold extractDate
    dsimp only
    rw [if_pos hne, hok]
  · intro ly ts hne hok
    unfold extractDate
    dsimp only
    rw [if_pos hne, hok]

theorem extractDate_fallback_witness :
    extractDate (some "2023-07") ""
        = some ⟨⟨2023, 7, 1, 0, 0, 0⟩, Precision.month⟩
    ∧ extractDate none "2024"
        = some ⟨⟨2024, 1, 1, 0, 0, 0⟩, Precision.year⟩ :=
  ⟨extractDate_fallback.1 "2023-07" ⟨⟨2023, 7, 1, 0, 0, 0⟩, Precision.month⟩
      (by decide) (by decide) "",
   extractDate_fallback.2.1 "2024" ⟨⟨2024, 1, 1, 0, 0, 0⟩, Precision.year⟩
      (by decide) (by decide)⟩

theorem applyEntry_filter_same (tm : TagMapping) (m : Metadata)
    (tag : List Frame) :
    (applyEntry tm m tag).filter (fun f => f.id = tm.tagID)
      = if getValue tm m ≠ "" then [⟨tm.tagID, getValue tm m⟩] else [] := by
  simp only [applyEntry, deleteFrames, addTextFrame]
  split_ifs with hv
  · rw [List.filter_append, List.filter_filter]
    have h1 : (tag.filter fun a =>
        decide (a.id = tm.tagID) && decide (a.id ≠ tm.tagID)) = [] :=
      List.filter_eq_nil_iff.mpr (fun a _ => by simp)
    rw [h1]
    simp
  · rw [List.filter_filter]
    exact List.filter_eq_nil_iff.mpr (fun a _ => by simp)

theorem applyEntry_filter_other (tm : TagMapping) (m : Metadata)
    (tag : List Frame) (id : String) (hne : tm.tagID ≠ id) :
    (applyEntry tm m tag).filter (fun f => f.id = id)
      = tag.filter (fun f => f.id = id) := by
  simp only [applyEntry, deleteFrames, addTextFrame]
  split_ifs with hv
  · rw [List.filter_append, List.filter_filter]
    have h2 : ([(⟨tm.tagID, getValue tm m⟩ : Frame)].filter
        (fun f => f.id = id)) = [] :=
      List.filter_eq_nil_iff.mpr (fun a ha => by
        simp only [List.mem_singleton] at ha
        subst ha
        simp [hne])
    rw [h2, List.append_nil]
    apply List.filter_congr
    intro a _
    by_cases ha : a.id = id
    · simp [ha, Ne.symm hne]
    · simp [ha]
  · rw [List.filter_filter]
    apply List.filter_congr
    intro a _
    by_cases ha : a.id = id
    · simp [ha, Ne.symm hne]
    · simp [ha]

theorem applyFold_untouched (ms : List TagMapping) (m : Metadata) (id : String)
    (hid : ∀ e ∈ ms, e.tagID ≠ id) :
    ∀ tag, ((ms.foldl (fun t e => applyEntry e m t) tag).filter
        (fun f => f.id = id))
      = tag.filter (fun f => f.id = id) := by
  induction ms with
  | nil => intro tag; rfl
  | cons e rest ih =>
    intro tag
    rw [List.foldl_cons]
    rw [ih (fun x hx => hid x (List.mem_cons_of_mem e hx))]
    exact applyEntry_filter_other e m tag id (hid e (List.mem_cons_self e rest))

theorem applyFold_filter (ms : List TagMapping) (m : Metadata)
    (tm : TagMapping) (hmem : tm ∈ ms)
    (hnd : (ms.map TagMapping.tagID).Nodup) :
    ∀ tag, ((ms.foldl (fun t e => applyEntry e m t) tag).filter
        (fun f => f.id = tm.tagID))
      = if getValue tm m ≠ "" then [⟨tm.tagID, getValue tm m⟩] else [] := by
  induction ms with
  | nil => cases hmem
  | cons e rest ih =>
    intro tag
    rw [List.map_cons, List.nodup_cons] at hnd
    rcases List.mem_cons.mp hmem with he | hr
    · subst he
      rw [List.foldl_cons]
      rw [applyFold_untouched rest m tm.tagID
        (fun x hx hxe => hnd.1 (hxe ▸ List.mem_map_of_mem TagMapping.tagID hx))]
      exact applyEntry_filter_same tm m tag
    · rw [List.foldl_cons]
      exact ih hr hnd.2 (applyEntry e m tag)

/-- C9: for every entry of the frame-mapping table and every metadata value,
after `applyTextFrames` the tag store holds, for that entry's frame id,
exactly one frame carrying the computed value when that value is non-empty and
no frame at all when it is empty — so no stale frame and no empty frame for a
mapped field survives, and an absent field emits nothing. -/
theorem applyTextFrames_invariant (m : Metadata) (tag : List Frame)
    (tm : TagMapping) (hmem : tm ∈ textFrameMappings) :
    ((applyTextFrames tag m).filter (fun f => f.id = tm.tagID)
        = if getValue tm m ≠ "" then [⟨tm.tagID, getValue tm m⟩] else [])
    ∧ (getValue tm m = "" →
        ∀ f ∈ applyTextFrames tag m, f.id ≠ tm.tagID) := by
  have hnd : (textFrameMappings.map TagMapping.tagID).Nodup := by
    simp only [textFrameMappings, List.map_cons, List.map_nil]
    decide
  have hmain := applyFold_filter textFrameMappings m tm hmem hnd tag
  refine ⟨hmain, fun hv f hf hfid => ?_⟩
  have hin : f ∈ (applyTextFrames tag m).filter (fun f => f.id = tm.tagID) :=
    List.mem_filter.mpr ⟨hf, by simp [hfid]⟩
  rw [applyTextFrames] at hin
  rw [hmain] at hin
  rw [if_neg (by simp [hv])] at hin
  cases hin

theorem applyTextFrames_invariant_witness :
    ((applyTextFrames
        [⟨"TIT2", "old title"⟩, ⟨"TIT3", ""⟩, ⟨"TXXX", "keep"⟩]
        { title := "New", subtitle := "", artist := "", album := "",
          albumArtist := "", grouping := "", genre := "", composer := "",
          publisher := "", copyright := "", language := "", bpm := 0,
          track := none, disc := none }).filter
        (fun f => f.id = "TIT2")
      = [⟨"TIT2", "New"⟩])
    ∧ (∀ f ∈ applyTextFrames
        [⟨"TIT2", "old title"⟩, ⟨"TIT3", ""⟩, ⟨"TXXX", "keep"⟩]
        { title := "New", subtitle := "", artist := "", album := "",
          albumArtist := "", grouping := "", genre := "", composer := "",
          publisher := "", copyright := "", language := "", bpm := 0,
          track := none, disc := none }, f.id ≠ "TIT3") :=
  ⟨(applyTextFrames_invariant
      { title := "New", subtitle := "", artist := "", album := "",
        albumArtist := "", grouping := "", genre := "", composer := "",
        publisher := "", copyright := "", language := "", bpm := 0,
        track := none, disc := none }
      [⟨"TIT2", "old title"⟩, ⟨"TIT3", ""⟩, ⟨"TXXX", "keep"⟩]
      ⟨"TIT2", "Title", none⟩ (List.mem_cons_self _ _)).1,
   (applyTextFrames_invariant
      { title := "New", subtitle := "", artist := "", album := "",
        albumArtist := "", grouping := "", genre := "", composer := "",
        publisher := "", copyright := "", language := "", bpm := 0,
        track := none, disc := none }
      [⟨"TIT2", "old title"⟩, ⟨"TIT3", ""⟩, ⟨"TXXX", "keep"⟩]
      ⟨"TIT3", "Subtitle", none⟩
      (List.mem_cons_of_mem _ (List.mem_cons_self _ _))).2 rfl⟩

theorem unquote_total_spec_witness :
    unquote ['a'] = ['a']
    ∧ unquote [squote, 'h', 'i', squote] = ['h', 'i']
    ∧ unquote [squote, 'h', 'i'] = [squote, 'h', 'i']
    ∧ unquote [dquote, 'x'] = [dquote, 'x']
    ∧ unquote ['p', 'q'] = ['p', 'q'] :=
  ⟨unquote_total_spec.1 ['a'] (by decide),
   unquote_total_spec.2.1 [squote, 'h', 'i', squote] (by decide) (by decide)
     (by decide),
   unquote_total_spec.2.2.1 [squote, 'h', 'i'] (by decide) (by decide),
   unquote_total_spec.2.2.2.1 [dquote, 'x'] (by decide) (by decide),
   unquote_total_spec.2.2.2.2 ['p', 'q'] (fun c hc => by
     simp only [List.head?_cons, Option.some.injEq] at hc
     subst hc
     decide)⟩

theorem numberInSetUnmarshal_total_witness :
    ∃ n : NumberInSet, numberInSetUnmarshalYAML "5/9" = Except.ok n :=
  numberInSetUnmarshal_total.1 "5/9"

theorem goCmp_lt_iff (x y : Chapter) :
    goCmpChapter x y < 0 ↔ x.start < y.start := by
  unfold goCmpChapter
  split_ifs with h1 h2 <;> constructor <;> intro h <;> omega

theorem cget_append (A : List Chapter) (z : Chapter) (B : List Chapter) :
    cget (A ++ z :: B) A.length = z := by
  induction A with
  | nil => rfl
  | cons a as ih =>
    simp only [List.cons_append, List.length_cons]
    exact ih

theorem cget_append_succ (A : List Chapter) (y x : Chapter) (B : List Chapter) :
    cget (A ++ y :: x :: B) (A.length + 1) = x := by
  induction A with
  | nil => rfl
  | cons a as ih =>
    simp only [List.cons_append, List.length_cons]
    exact ih

theorem set_append (A : List Chapter) (z w : Chapter) (B : List Chapter) :
    (A ++ z :: B).set A.length w = A ++ w :: B := by
  induction A with
  | nil => rfl
  | cons a as ih =>
    simp only [List.cons_append, List.length_cons, List.set_cons_succ]
    rw [ih]

theorem set_append_succ (A : List Chapter) (y x w : Chapter) (B : List Chapter) :
    (A ++ y :: x :: B).set (A.length + 1) w = A ++ y :: w :: B := by
  induction A with
  | nil => rfl
  | cons a as ih =>
    simp only [List.cons_append, List.length_cons, List.set_cons_succ]
    rw [ih]

theorem cswap_adj (A : List Chapter) (y x : Chapter) (B : List Chapter) :
    cswap (A ++ y :: x :: B) (A.length + 1) A.length = A ++ x :: y :: B := by
  unfold cswap
  rw [cget_append, cget_append_succ, set_append_succ, set_append]

theorem insInner_bridge (ru : List Chapter) (x : Chapter) (R : List Chapter) :
    insInner (ru.reverse ++ x :: R) 0 ru.length = (rinsert x ru).reverse ++ R := by
  induction ru generalizing x R with
  | nil => simp [insInner, rinsert]
  | cons y ys ih =>
    simp only [List.reverse_cons, List.append_assoc, List.cons_append,
      List.nil_append, List.length_cons]
    have hg1 : cget (ys.reverse ++ y :: x :: R) (ys.length + 1) = x := by
      have h := cget_append_succ ys.reverse y x R
      rwa [List.length_reverse] at h
    have hg2 : cget (ys.reverse ++ y :: x :: R) ys.length = y := by
      have h := cget_append ys.reverse y (x :: R)
      rwa [List.length_reverse] at h
    rw [insInner]
    by_cases hcmp : goCmpChapter x y < 0
    · rw [if_pos ⟨Nat.succ_pos _, by rw [hg1, hg2]; exact hcmp⟩]
      have hsw : cswap (ys.reverse ++ y :: x :: R) (ys.length + 1) ys.length
          = ys.reverse ++ x :: y :: R := by
        have h := cswap_adj ys.reverse y x R
        rwa [List.length_reverse] at h
      rw [hsw, ih x (y :: R)]
      rw [rinsert, if_pos hcmp]
      simp [List.reverse_cons, List.append_assoc]
    · rw [if_neg (by rw [hg1, hg2]; tauto)]
      rw [rinsert, if_neg hcmp]
      simp [List.reverse_cons, List.append_assoc]

theorem rinsert_length (x : Chapter) (l : List Chapter) :
    (rinsert x l).length = l.length + 1 := by
  induction l with
  | nil => rfl
  | cons y ys ih =>
    rw [rinsert]
    split_ifs <;> simp [ih]

theorem insOuter_eq_ssortRev (V : List Chapter) :
    ∀ ru : List Chapter,
      insOuter 0 V.length (ru.reverse ++ V) ru.length = ssortRev ru V := by
  induction V with
  | nil =>
    intro ru
    simp [insOuter, ssortRev]
  | cons x v ih =>
    intro ru
    simp only [List.length_cons]
    rw [insOuter, insInner_bridge ru x v]
    rw [show ru.length + 1 = (rinsert x ru).length from (rinsert_length x ru).symm]
    exact ih (rinsert x ru)

theorem insertionSortGo_eq (l : List Chapter) :
    insertionSortGo l 0 l.length = ssortRev [] l := by
  cases l with
  | nil => rfl
  | cons x v =>
    unfold insertionSortGo
    have h1 : (x :: v).length - (0 + 1) = v.length := by simp
    rw [h1]
    have h := insOuter_eq_ssortRev v [x]
    simpa using h

theorem rinsert_perm (x : Chapter) (l : List Chapter) :
    List.Perm (rinsert x l) (x :: l) := by
  induction l with
  | nil => exact List.Perm.refl _
  | cons y ys ih =>
    rw [rinsert]
    split_ifs
    · exact (ih.cons y).trans (List.Perm.swap x y ys)
    · exact List.Perm.refl _

theorem rinsert_sorted (x : Chapter) (l : List Chapter)
    (h : List.Pairwise (fun a b => b.start ≤ a.start) l) :
    List.Pairwise (fun a b => b.start ≤ a.start) (rinsert x l) := by
  induction l with
  | nil => simp [rinsert]
  | cons y ys ih =>
    rw [List.pairwise_cons] at h
    rw [rinsert]
    split_ifs with hcmp
    · rw [List.pairwise_cons]
      refine ⟨fun z hz => ?_, ih h.2⟩
      rcases List.mem_cons.mp ((rinsert_perm x ys).mem_iff.mp hz) with hzx | hzy
      · rw [hzx]
        exact le_of_lt ((goCmp_lt_iff x y).mp hcmp)
      · exact h.1 z hzy
    · rw [List.pairwise_cons]
      refine ⟨fun z hz => ?_, List.pairwise_cons.mpr h⟩
      rcases List.mem_cons.mp hz with hzy | hzys
      · subst hzy
        have := (goCmp_lt_iff x z).not.mp hcmp
        omega
      · exact le_trans (h.1 z hzys)
          (by have := (goCmp_lt_iff x y).not.mp hcmp; omega)

theorem ssortRev_sorted (V : List Chapter) :
    ∀ ru : List Chapter, List.Pairwise (fun a b => b.start ≤ a.start) ru →
      List.Pairwise (fun a b => a.start ≤ b.start) (ssortRev ru V) := by
  induction V with
  | nil =>
    intro ru h
    rw [ssortRev]
    exact List.pairwise_reverse.mpr h
  | cons x v ih =>
    intro ru h
    exact ih (rinsert x ru) (rinsert_sorted x ru h)

theorem rinsert_filter (x : Chapter) (v : Int) (ru : List Chapter) :
    (rinsert x ru).reverse.filter (fun c => c.start = v)
      = ru.reverse.filter (fun c => c.start = v)
        ++ if x.start = v then [x] else [] := by
  induction ru with
  | nil =>
    by_cases hx : x.start = v <;> simp [rinsert, hx]
  | cons y ys ih =>
    rw [rinsert]
    by_cases hcmp : goCmpChapter x y < 0
    · rw [if_pos hcmp]
      simp only [List.reverse_cons, List.filter_append, ih, List.append_assoc]
      by_cases hx : x.start = v
      · have hy : ¬ y.start = v := by
          have := (goCmp_lt_iff x y).mp hcmp
          omega
        simp [List.filter_cons, hx, hy]
      · simp [List.filter_cons, hx]
    · rw [if_neg hcmp]
      simp only [List.reverse_cons, List.filter_append, List.append_assoc]
      by_cases hx : x.start = v
      · simp [List.filter_cons, hx]
      · simp [List.filter_cons, hx]

theorem ssortRev_filter (V : List Chapter) (v : Int) :
    ∀ ru : List Chapter,
      (ssortRev ru V).filter (fun c => c.start = v)
        = ru.reverse.filter (fun c => c.start = v)
          ++ V.filter (fun c => c.start = v) := by
  induction V with
  | nil =>
    intro ru
    rw [ssortRev]
    simp
  | cons x w ih =>
    intro ru
    rw [show ssortRev ru (x :: w) = ssortRev (rinsert x ru) w from rfl]
    rw [ih (rinsert x ru), rinsert_filter]
    rw [List.filter_cons]
    simp only [decide_eq_true_eq]
    split_ifs with hx
    · simp
    · simp

theorem goSortFunc_small (l : List Chapter) (hlen : l.length ≤ 12) :
    goSortFunc l = ssortRev [] l := by
  unfold goSortFunc
  rw [show 2 * l.length + 64 = (2 * l.length + 63) + 1 from rfl]
  rw [pdqsortLoop]
  rw [if_pos (by simpa using hlen)]
  have h := insertionSortGo_eq l
  simpa using h

set_option maxRecDepth 100000 in
/-- C7 counterexample: the read-time chapter sort is `slices.SortFunc`, Go's
pattern-defeating quicksort, which is not stable: on thirteen chapter frames —
one with start 9 followed by twelve with start 0 — the pivot swap moves the
sixth equal-start chapter in front of the first five, so chapters with equal
Start values do not keep their original relative order from the tag store. -/
theorem chapter_sort_unstable_counterexample :
    ((getMetadataChapters
        [("a", 9), ("b1", 0), ("b2", 0), ("b3", 0), ("b4", 0), ("b5", 0),
         ("b6", 0), ("b7", 0), ("b8", 0), ("b9", 0), ("b10", 0), ("b11", 0),
         ("b12", 0)]).map Chapter.title
      = ["b6", "b1", "b2", "b3", "b4", "b5", "b7", "b8", "b9", "b10", "b11",
         "b12", "a"])
    ∧ (getMetadataChapters
        [("a", 9), ("b1", 0), ("b2", 0), ("b3", 0), ("b4", 0), ("b5", 0),
         ("b6", 0), ("b7", 0), ("b8", 0), ("b9", 0), ("b10", 0), ("b11", 0),
         ("b12", 0)]).filter (fun c => c.start = 0)
      ≠ ([("a", 9), ("b1", 0), ("b2", 0), ("b3", 0), ("b4", 0), ("b5", 0),
          ("b6", 0), ("b7", 0), ("b8", 0), ("b9", 0), ("b10", 0), ("b11", 0),
          ("b12", 0)].map fun f => (⟨f.1, f.2⟩ : Chapter)).filter
            (fun c => c.start = 0) := by
  refine ⟨by decide, by decide⟩

/-- C7 amended: on chapter lists of at most twelve frames — where Go's
`slices.SortFunc` runs its insertion-sort branch — the resulting chapter
sequence is sorted in ascending order of Start and the sort is stable:
for every start value, the subsequence of chapters with that start keeps the
original tag-store order.  (Above that size the quicksort stages apply and
stability fails, as the counterexample shows.) -/
theorem chapter_sort_small_sorted_stable (frames : List (String × Int))
    (hlen : frames.length ≤ 12) :
    List.Pairwise (fun a b => a.start ≤ b.start) (getMetadataChapters frames)
    ∧ ∀ v : Int,
      (getMetadataChapters frames).filter (fun c => c.start = v)
        = (frames.map fun f => (⟨f.1, f.2⟩ : Chapter)).filter
            (fun c => c.start = v) := by
  have hlen2 : (frames.map fun f => (⟨f.1, f.2⟩ : Chapter)).length ≤ 12 := by
    simpa using hlen
  unfold getMetadataChapters
  rw [goSortFunc_small _ hlen2]
  constructor
  · exact ssortRev_sorted _ [] List.Pairwise.nil
  · intro v
    have h := ssortRev_filter (frames.map fun f => (⟨f.1, f.2⟩ : Chapter)) v []
    simpa using h

theorem chapter_sort_small_witness :
    List.Pairwise (fun a b => a.start ≤ b.start)
        (getMetadataChapters [("b", 60), ("a", 60), ("c", 0)])
    ∧ (getMetadataChapters [("b", 60), ("a", 60), ("c", 0)]).filter
        (fun c => c.start = 60)
      = [⟨"b", 60⟩, ⟨"a", 60⟩] :=
  ⟨(chapter_sort_small_sorted_stable [("b", 60), ("a", 60), ("c", 0)]
      (by decide)).1,
   (chapter_sort_small_sorted_stable [("b", 60), ("a", 60), ("c", 0)]
      (by decide)).2 60⟩

end Chape
